import Mathlib

/-!
Formal model of the hotel-scraper backend (Booking.com and Agoda scrapers).

Python text is modelled as `List Char`; machine floats originating from
decimal text are modelled as `ℚ` (every value handled by the scrapers comes
from a finite decimal string, which `ℚ` represents exactly); the Haversine
computation is modelled over `ℝ`.  Fallible Python code (a raised
exception) is modelled with `Except`/`Option`.  CPython specifics that the
code relies on (`float()` / `int()` literal syntax, `str.split`,
`datetime.strptime` with the `%Y-%m-%d` pattern, `re.search` semantics)
are embedded directly; the modelled subset of `float()` omits
`inf`/`nan`/underscore separators, which no code path here distinguishes
from a parse failure.
-/

abbrev Str := List Char

def str (s : String) : Str := s.data

/-- Python `str.isspace` characters in the ASCII range (what `float()`,
`int()` and `str.strip()` strip). -/
def isSp (c : Char) : Bool :=
  c = ' ' ∨ c = '\t' ∨ c = '\n' ∨ c = '\r' ∨ c = '\x0b' ∨ c = '\x0c'

def isDig (c : Char) : Bool := '0' ≤ c ∧ c ≤ '9'

/-- characters matched by the regex class `[\d.]`. -/
def isDigDot (c : Char) : Bool := isDig c ∨ c = '.'

def digitVal (c : Char) : ℕ := c.toNat - '0'.toNat

/-- value of a digit string read in base 10 (Python `int` on a digit string). -/
def natOfDigits (l : Str) : ℕ := l.foldl (fun a c => 10 * a + digitVal c) 0

/-- An exact decimal value `num / 10 ^ exp`.  Every float the scrapers
handle is parsed from a finite decimal literal, which this type represents
exactly; comparisons below are value comparisons, exactly what Python's
float comparisons compute on these values. -/
structure Dec where
  num : ℤ
  exp : ℕ
deriving DecidableEq, Repr

def Dec.ofInt (n : ℤ) : Dec := ⟨n, 0⟩

def Dec.toQ (a : Dec) : ℚ := (a.num : ℚ) / (10 : ℚ) ^ a.exp

/-- value comparison of two decimals (cross-multiplied, so it is decidable
by integer arithmetic). -/
def Dec.le (a b : Dec) : Bool := a.num * (10 : ℤ) ^ b.exp ≤ b.num * (10 : ℤ) ^ a.exp

theorem Dec.le_iff_toQ (a b : Dec) : Dec.le a b = true ↔ a.toQ ≤ b.toQ := by
  unfold Dec.le Dec.toQ
  rw [div_le_div_iff₀ (by positivity) (by positivity), decide_eq_true_eq]
  constructor
  · intro h
    exact_mod_cast h
  · intro h
    exact_mod_cast h

/-- Python `str.strip()` restricted to ASCII whitespace. -/
def trimWs (l : Str) : Str :=
  ((l.dropWhile (isSp ·)).reverse.dropWhile (isSp ·)).reverse

/-- Python `str.split(sep)` for a one-character separator: splits on every
occurrence, keeping empty pieces. -/
def splitChar (c : Char) : Str → List Str
  | [] => [[]]
  | x :: xs =>
    if x = c then [] :: splitChar c xs
    else
      match splitChar c xs with
      | [] => [[x]]
      | h :: t => (x :: h) :: t

/-- Python `sep.join(pieces)` for a one-character separator. -/
def joinChar (c : Char) : List Str → Str
  | [] => []
  | [a] => a
  | a :: b :: t => a ++ c :: joinChar c (b :: t)

theorem splitChar_ne_nil (c : Char) (l : Str) : splitChar c l ≠ [] := by
  induction l with
  | nil => simp [splitChar]
  | cons x xs ih =>
    by_cases h : x = c
    · simp [splitChar, h]
    · simp only [splitChar, if_neg h]
      cases hs : splitChar c xs with
      | nil => simp
      | cons a t => simp

theorem splitChar_singleton (c : Char) (l r : Str) :
    splitChar c l = [r] ↔ l = r ∧ c ∉ l := by
  induction l generalizing r with
  | nil =>
    constructor
    · intro h
      simp [splitChar] at h
      subst h
      simp
    · rintro ⟨rfl, -⟩; rfl
  | cons x xs ih =>
    by_cases h : x = c
    · subst h
      simp only [splitChar, if_pos rfl]
      constructor
      · intro hh
        have h1 : ([] : Str) = r := (List.cons_eq_cons.mp hh).1
        have h2 : splitChar x xs = [] := (List.cons_eq_cons.mp hh).2
        exact absurd h2 (splitChar_ne_nil x xs)
      · rintro ⟨rfl, hmem⟩; simp at hmem
    · simp only [splitChar, if_neg h]
      cases hs : splitChar c xs with
      | nil => exact absurd hs (splitChar_ne_nil c xs)
      | cons a t =>
        constructor
        · intro hh
          have hr : x :: a = r := (List.cons_eq_cons.mp hh).1
          have ht : t = [] := (List.cons_eq_cons.mp hh).2
          subst ht
          rcases (ih a).mp hs with ⟨rfl, hna⟩
          subst hr
          refine ⟨rfl, ?_⟩
          simp only [List.mem_cons, not_or]
          exact ⟨fun hc => h hc.symm, hna⟩
        · rintro ⟨rfl, hmem⟩
          simp only [List.mem_cons, not_or] at hmem
          have hxs : splitChar c xs = [xs] := (ih xs).mpr ⟨rfl, hmem.2⟩
          rw [hxs] at hs
          have hp : xs = a := (List.cons_eq_cons.mp hs).1
          have ht : ([] : List Str) = t := (List.cons_eq_cons.mp hs).2
          subst hp
          rw [← ht]

theorem splitChar_pair (c : Char) (s a b : Str) :
    splitChar c s = [a, b] ↔ s = a ++ c :: b ∧ c ∉ a ∧ c ∉ b := by
  induction s generalizing a with
  | nil =>
    constructor
    · intro h; simp [splitChar] at h
    · rintro ⟨h, -⟩; exact absurd h (by simp)
  | cons x xs ih =>
    by_cases h : x = c
    · subst h
      simp only [splitChar, if_pos rfl]
      constructor
      · intro hh
        have ha : ([] : Str) = a := (List.cons_eq_cons.mp hh).1
        have hb : splitChar x xs = [b] := (List.cons_eq_cons.mp hh).2
        rcases (splitChar_singleton x xs b).mp hb with ⟨rfl, hnb⟩
        subst ha
        exact ⟨rfl, by simp, hnb⟩
      · rintro ⟨hs, hna, hnb⟩
        cases a with
        | nil =>
          simp only [List.nil_append] at hs
          have hx : xs = b := (List.cons_eq_cons.mp hs).2
          subst hx
          rw [(splitChar_singleton x xs xs).mpr ⟨rfl, hnb⟩]
          simp
        | cons y ys =>
          have hxy : x = y := (List.cons_eq_cons.mp hs).1
          rw [hxy] at hna
          simp at hna
    · simp only [splitChar, if_neg h]
      cases hs : splitChar c xs with
      | nil => exact absurd hs (splitChar_ne_nil c xs)
      | cons p t =>
        constructor
        · intro hh
          have hp : x :: p = a := (List.cons_eq_cons.mp hh).1
          have ht : t = [b] := (List.cons_eq_cons.mp hh).2
          subst ht
          rcases (ih p).mp hs with ⟨hxs, hnp, hnb⟩
          subst hxs
          subst hp
          refine ⟨rfl, ?_, hnb⟩
          simp only [List.mem_cons, not_or]
          exact ⟨fun hc => h hc.symm, hnp⟩
        · rintro ⟨hsx, hna, hnb⟩
          cases a with
          | nil =>
            have hx : x = c := (List.cons_eq_cons.mp hsx).1
            exact absurd hx h
          | cons y ys =>
            have hxy : x = y := (List.cons_eq_cons.mp hsx).1
            have hxs2 : xs = ys ++ c :: b := (List.cons_eq_cons.mp hsx).2
            subst hxy
            simp only [List.mem_cons, not_or] at hna
            have hsy : splitChar c xs = [ys, b] := (ih ys).mpr ⟨hxs2, hna.2, hnb⟩
            rw [hsy] at hs
            have hp : ys = p := (List.cons_eq_cons.mp hs).1
            have ht : ([b] : List Str) = t := (List.cons_eq_cons.mp hs).2
            subst hp
            rw [← ht]

/-- sign prefix of a Python numeric literal. -/
def parseSign : Str → (Bool × Str)
  | '+' :: r => (false, r)
  | '-' :: r => (true, r)
  | r => (false, r)

/-- Python `float(s)` restricted to finite decimal literals: optional
surrounding whitespace, optional sign, a digit/point mantissa with at least
one digit and at most one point, optional exponent.  (`inf`, `nan` and
underscore digit separators are outside the modelled subset.) -/
def pyFloat (l : Str) : Option Dec :=
  let l1 := trimWs l
  let (neg, r) := parseSign l1
  let (ip, r2) := r.span (isDig ·)
  let withMant : Option (Dec × Str) :=
    match r2 with
    | '.' :: r3 =>
      let (fp, r4) := r3.span (isDig ·)
      if ip = [] ∧ fp = [] then none
      else some (⟨(natOfDigits (ip ++ fp) : ℤ), fp.length⟩, r4)
    | _ => if ip = [] then none else some (⟨(natOfDigits ip : ℤ), 0⟩, r2)
  match withMant with
  | none => none
  | some (m, rest) =>
    let signed : Dec := if neg then ⟨-m.num, m.exp⟩ else m
    match rest with
    | [] => some signed
    | e :: r5 =>
      if e = 'e' ∨ e = 'E' then
        let (eneg, r6) := parseSign r5
        let (ed, r7) := r6.span (isDig ·)
        if ed = [] ∨ r7 ≠ [] then none
        else if eneg then some ⟨signed.num, signed.exp + natOfDigits ed⟩
        else some ⟨signed.num * (10 : ℤ) ^ natOfDigits ed, signed.exp⟩
      else none

/-- Python `int(s)` for a decimal string: optional whitespace, optional
sign, a non-empty digit run (underscore separators outside the modelled
subset). -/
def pyInt (l : Str) : Option ℤ :=
  let l1 := trimWs l
  let (neg, r) := parseSign l1
  if r ≠ [] ∧ r.all (isDig ·) then
    some (if neg then -(natOfDigits r : ℤ) else (natOfDigits r : ℤ))
  else none

namespace Booking

/-- a validated latitude/longitude pair (`extract_coordinates` result). -/
structure Coord where
  latitude : Dec
  longitude : Dec
deriving DecidableEq, Repr

/-- `ModernBookingScraper.extract_coordinates`: split the
`data-atlas-latlng` string on a comma into two floats, validate the
ranges, `None` on any failure (the `except` clause catches the unpack and
parse errors). -/
def extract_coordinates (s : Str) : Option Coord :=
  if s = [] then none
  else
    match splitChar ',' s with
    | [a, b] =>
      match pyFloat a, pyFloat b with
      | some lat, some lng =>
        if Dec.le (.ofInt (-90)) lat ∧ Dec.le lat (.ofInt 90) ∧
            Dec.le (.ofInt (-180)) lng ∧ Dec.le lng (.ofInt 180) then
          some ⟨lat, lng⟩
        else none
      | some _, none => none
      | none, _ => none
    | _ => none

end Booking

example : pyFloat (str ("40.7")) = some ⟨407, 1⟩ := by decide
example : pyFloat (str (" -74.0 ")) = some ⟨-740, 1⟩ := by decide
example : pyFloat (str ("1.5e2")) = some ⟨1500, 1⟩ := by decide
example : pyFloat (str (".")) = none := by decide
example : pyFloat (str ("1.2.3")) = none := by decide
example : pyFloat (str ("5.")) = some ⟨5, 0⟩ := by decide
example : Booking.extract_coordinates (str ("40.7,-74.0")) = some ⟨⟨407, 1⟩, ⟨-740, 1⟩⟩ := by
  decide
example : Booking.extract_coordinates (str ("200,-74.0")) = none := by decide
example : Booking.extract_coordinates (str ("")) = none := by decide
example : Booking.extract_coordinates (str ("1,2,3")) = none := by decide

theorem Dec.toQ_ofInt (n : ℤ) : (Dec.ofInt n).toQ = (n : ℚ) := by
  simp [Dec.ofInt, Dec.toQ]

/-- C6: the coordinate normalizer accepts exactly the strings that split on
one comma into two parseable floats with latitude in [-90, 90] and
longitude in [-180, 180]; "40.7,-74.0" is accepted as (40.7, -74.0) and
"200,-74.0" is rejected. -/
theorem C6_coordinate_normalizer :
    (∀ s c, Booking.extract_coordinates s = some c ↔
      ∃ a b, s = a ++ ',' :: b ∧ ',' ∉ a ∧ ',' ∉ b ∧
        pyFloat a = some c.latitude ∧ pyFloat b = some c.longitude ∧
        -90 ≤ c.latitude.toQ ∧ c.latitude.toQ ≤ 90 ∧
        -180 ≤ c.longitude.toQ ∧ c.longitude.toQ ≤ 180)
    ∧ (∃ c, Booking.extract_coordinates (str ("40.7,-74.0")) = some c ∧
        c.latitude.toQ = 407 / 10 ∧ c.longitude.toQ = -74)
    ∧ Booking.extract_coordinates (str ("200,-74.0")) = none := by
  refine ⟨?_, ?_, by decide⟩
  · intro s c
    constructor
    · intro h
      unfold Booking.extract_coordinates at h
      split at h
      · exact absurd h (by simp)
      · split at h
        · rename_i a b heq
          split at h
          · rename_i lat lng hfa hfb
            split at h
            · rename_i hbnd
              obtain ⟨hb1, hb2, hb3, hb4⟩ := hbnd
              obtain ⟨hs2, hna, hnb⟩ := (splitChar_pair ',' s a b).mp heq
              obtain rfl : Booking.Coord.mk lat lng = c := Option.some.inj h
              refine ⟨a, b, hs2, hna, hnb, hfa, hfb, ?_, ?_, ?_, ?_⟩
              · have := (Dec.le_iff_toQ _ _).mp hb1
                rwa [Dec.toQ_ofInt] at this
              · have := (Dec.le_iff_toQ _ _).mp hb2
                rwa [Dec.toQ_ofInt] at this
              · have := (Dec.le_iff_toQ _ _).mp hb3
                rwa [Dec.toQ_ofInt] at this
              · have := (Dec.le_iff_toQ _ _).mp hb4
                rwa [Dec.toQ_ofInt] at this
            · exact absurd h (by simp)
          · exact absurd h (by simp)
          · exact absurd h (by simp)
        · exact absurd h (by simp)
    · rintro ⟨a, b, rfl, hna, hnb, hfa, hfb, h1, h2, h3, h4⟩
      unfold Booking.extract_coordinates
      rw [if_neg (by simp)]
      rw [(splitChar_pair ',' (a ++ ',' :: b) a b).mpr ⟨rfl, hna, hnb⟩]
      simp only [hfa, hfb]
      have hcond : Dec.le (.ofInt (-90)) c.latitude = true ∧
          Dec.le c.latitude (.ofInt 90) = true ∧
          Dec.le (.ofInt (-180)) c.longitude = true ∧
          Dec.le c.longitude (.ofInt 180) = true := by
        refine ⟨?_, ?_, ?_, ?_⟩
        · rw [Dec.le_iff_toQ, Dec.toQ_ofInt]
          exact_mod_cast h1
        · rw [Dec.le_iff_toQ, Dec.toQ_ofInt]
          exact_mod_cast h2
        · rw [Dec.le_iff_toQ, Dec.toQ_ofInt]
          exact_mod_cast h3
        · rw [Dec.le_iff_toQ, Dec.toQ_ofInt]
          exact_mod_cast h4
      rw [if_pos hcond]
  · refine ⟨⟨⟨407, 1⟩, ⟨-740, 1⟩⟩, by decide, ?_, ?_⟩
    · unfold Dec.toQ
      norm_num
    · unfold Dec.toQ
      norm_num

/-- `stripPre p l = some r` iff `l = p ++ r` (matching a literal prefix). -/
def stripPre : Str → Str → Option Str
  | [], l => some l
  | _ :: _, [] => none
  | a :: p, b :: l => if a = b then stripPre p l else none

theorem stripPre_eq_some (p l r : Str) : stripPre p l = some r ↔ l = p ++ r := by
  induction p generalizing l with
  | nil =>
    simp [stripPre]
  | cons a p ih =>
    cases l with
    | nil => simp [stripPre]
    | cons b l2 =>
      by_cases h : a = b
      · subst h
        simp [stripPre, ih]
      · simp [stripPre, if_neg h]
        intro hc
        exact absurd hc.symm h

/-- scan positions left to right and return the first position's match:
the semantics of `re.search` for a pattern whose per-position match is
deterministic. -/
def scan (g : Str → Option Str) : Str → Option Str
  | [] => none
  | x :: t =>
    match g (x :: t) with
    | some r => some r
    | none => scan g t

theorem scan_eq_some (g : Str → Option Str) (hg : g [] = none) (l t : Str) :
    scan g l = some t ↔
      ∃ n, g (l.drop n) = some t ∧ ∀ m, m < n → g (l.drop m) = none := by
  induction l with
  | nil =>
    simp only [scan]
    constructor
    · intro h; exact absurd h (by simp)
    · rintro ⟨n, hn, -⟩
      rw [List.drop_nil] at hn
      rw [hg] at hn
      exact absurd hn (by simp)
  | cons x xs ih =>
    simp only [scan]
    cases hx : g (x :: xs) with
    | some r =>
      constructor
      · intro h
        refine ⟨0, ?_, by omega⟩
        simpa using hx.trans (congrArg _ (Option.some.inj h))
      · rintro ⟨n, hn, hall⟩
        cases n with
        | zero => simp only [List.drop_zero] at hn; rw [hx] at hn; exact hn
        | succ k =>
          have := hall 0 (by omega)
          simp only [List.drop_zero] at this
          rw [hx] at this
          exact absurd this (by simp)
    | none =>
      rw [ih]
      constructor
      · rintro ⟨n, hn, hall⟩
        refine ⟨n + 1, by simpa using hn, ?_⟩
        intro m hm
        cases m with
        | zero => simpa using hx
        | succ k => exact hall k (by omega)
      · rintro ⟨n, hn, hall⟩
        cases n with
        | zero => simp only [List.drop_zero] at hn; rw [hx] at hn; exact absurd hn (by simp)
        | succ k =>
          refine ⟨k, by simpa using hn, ?_⟩
          intro m hm
          have := hall (m + 1) (by omega)
          simpa using this

theorem scan_eq_none (g : Str → Option Str) (l : Str) :
    scan g l = none ↔ ∀ n, g (l.drop n) = none ∨ n ≥ l.length := by
  induction l with
  | nil => simp [scan]
  | cons x xs ih =>
    simp only [scan]
    cases hx : g (x :: xs) with
    | some r =>
      constructor
      · intro h; exact absurd h (by simp)
      · intro h
        rcases h 0 with h0 | h0
        · simp only [List.drop_zero] at h0; rw [hx] at h0; exact absurd h0 (by simp)
        · simp at h0
    | none =>
      rw [ih]
      constructor
      · intro h n
        cases n with
        | zero => left; simpa using hx
        | succ k =>
          rcases h k with hk | hk
          · left; simpa using hk
          · right; simp; omega
      · intro h k
        rcases h (k + 1) with hk | hk
        · left; simpa using hk
        · right; simp at hk; omega

/-- if every element of `a` satisfies `p` and the first element of `b` does
not, then `takeWhile p` of `a ++ b` is exactly `a` (and `dropWhile` is `b`). -/
theorem takeWhile_append_exact {p : Char → Bool} (a b : Str)
    (h1 : ∀ c ∈ a, p c) (h2 : ∀ c ∈ b.take 1, ¬ p c) :
    (a ++ b).takeWhile p = a ∧ (a ++ b).dropWhile p = b := by
  induction a with
  | nil =>
    cases b with
    | nil => simp
    | cons y ys =>
      have hy : ¬ p y := h2 y (by simp)
      simp [List.takeWhile, List.dropWhile, hy]
  | cons x xs ih =>
    have hx : p x := h1 x (by simp)
    have := ih (fun c hc => h1 c (by simp [hc]))
    simp only [List.cons_append, List.takeWhile_cons, List.dropWhile_cons, hx]
    simp [this.1, this.2]

/-- one-position match of the regex `Scored\s+([\d.]+)`: the literal
`Scored`, at least one whitespace character (greedy), then the maximal
non-empty run of `[\d.]` characters, which is the captured group. -/
def matchScoredAt (l : Str) : Option Str :=
  match stripPre (str ("Scored")) l with
  | none => none
  | some r =>
    let (ws, r2) := r.span (isSp ·)
    if ws = [] then none
    else
      let tok := r2.takeWhile (isDigDot ·)
      if tok = [] then none else some tok

/-- one-position match of the regex `(\d[\d,]*)\s+reviews`: a digit, then
the maximal run of digits/commas (the capture), at least one whitespace
character, then the literal `reviews`. -/
def matchReviewsAt (l : Str) : Option Str :=
  match l with
  | [] => none
  | c :: rest =>
    if isDig c then
      let ds := rest.takeWhile (fun x => isDig x ∨ x = ',')
      let r2 := rest.dropWhile (fun x => isDig x ∨ x = ',')
      let ws := r2.takeWhile (isSp ·)
      let r3 := r2.dropWhile (isSp ·)
      if ws = [] then none
      else if (str ("reviews")).isPrefixOf r3 then some (c :: ds) else none
    else none

/-- one-position match of the regex `([\d.]+)` (test.py variant): the
maximal non-empty run of `[\d.]` characters. -/
def matchNumAt (l : Str) : Option Str :=
  match l with
  | [] => none
  | c :: _ => if isDigDot c then some (l.takeWhile (isDigDot ·)) else none

/-- `re.search(r'Scored\s+([\d.]+)', raw)`: leftmost match. -/
def findScored (l : Str) : Option Str := scan matchScoredAt l

/-- `re.search(r'(\d[\d,]*)\s+reviews', raw)`: leftmost match. -/
def findReviews (l : Str) : Option Str := scan matchReviewsAt l

/-- `re.search(r'([\d.]+)', raw)`: leftmost match. -/
def findNum (l : Str) : Option Str := scan matchNumAt l

/-- `int(reviews_match.group(1).replace(',', ''))`. -/
def reviewsCount (t : Str) : ℕ := natOfDigits (t.filter (· ≠ ','))

instance exceptDecEq {ε α : Type} [DecidableEq ε] [DecidableEq α] :
    DecidableEq (Except ε α) := fun x y =>
  match x, y with
  | .ok a, .ok b => if h : a = b then isTrue (by rw [h]) else isFalse (by simp [h])
  | .ok _, .error _ => isFalse (by simp)
  | .error _, .ok _ => isFalse (by simp)
  | .error e, .error f => if h : e = f then isTrue (by rw [h]) else isFalse (by simp [h])

/-- result dictionary of `clean_rating`. -/
structure Rating where
  score : Option Dec
  reviews : Option ℕ
deriving DecidableEq, Repr

namespace Booking

/-- `ModernBookingScraper.clean_rating`: score from
`Scored\s+([\d.]+)`, review count from `(\d[\d,]*)\s+reviews`.  The
`float()` conversion of the captured score token can raise `ValueError`
(e.g. a token consisting only of points), modelled as `Except.error`. -/
def clean_rating (raw : Str) : Except Unit Rating :=
  let score_match := findScored raw
  let reviews_match := findReviews raw
  match score_match with
  | none => .ok ⟨none, reviews_match.map reviewsCount⟩
  | some tok =>
    match pyFloat tok with
    | none => .error ()
    | some d => .ok ⟨some d, reviews_match.map reviewsCount⟩

/-- `ModernBookingScraper.extract_star_count`: `None` on empty markup,
otherwise the number of `<span` occurrences divided by 2 (integer
division), `None` when there are no occurrences. -/
def extract_star_count (stars_html : Str) : Option ℕ :=
  if stars_html = [] then none
  else
    let span_count := countSpan stars_html
    if span_count > 0 then some (span_count / 2) else none
where
  /-- `stars_html.count("<span")`; the pattern cannot overlap itself, so
  counting match positions equals Python's non-overlapping count. -/
  countSpan : Str → ℕ
    | [] => 0
    | x :: t => (if (str ("<span")).isPrefixOf (x :: t) then 1 else 0) + countSpan t

end Booking

namespace TestPy

/-- `clean_rating` from test.py: empty text short-circuits, the score is
the leftmost `([\d.]+)` match anywhere in the text (no `Scored` anchor),
the review count is as in the main scraper. -/
def clean_rating (raw : Str) : Except Unit Rating :=
  if raw = [] then .ok ⟨none, none⟩
  else
    match findNum raw with
    | none => .ok ⟨none, (findReviews raw).map reviewsCount⟩
    | some tok =>
      match pyFloat tok with
      | none => .error ()
      | some d => .ok ⟨some d, (findReviews raw).map reviewsCount⟩

/-- `extract_star_count` from test.py: 0 on empty markup, otherwise the
raw `<span` count (no division). -/
def extract_star_count (stars_html : Str) : ℕ :=
  if stars_html = [] then 0 else Booking.extract_star_count.countSpan stars_html

end TestPy

example : Booking.clean_rating (str ("Scored 8.7 8.7 Excellent 1,234 reviews")) =
    .ok ⟨some ⟨87, 1⟩, some 1234⟩ := by decide
example : Booking.clean_rating (str ("8.7 Excellent 123 reviews")) =
    .ok ⟨none, some 123⟩ := by decide
example : Booking.clean_rating (str ("Scored .")) = .error () := by decide
example : Booking.clean_rating (str ("")) = .ok ⟨none, none⟩ := by decide
example : TestPy.clean_rating (str ("8.7 Excellent 123 reviews")) =
    .ok ⟨some ⟨87, 1⟩, some 123⟩ := by decide
example : Booking.extract_star_count (str ("<span a><span b><span c><span d>")) =
    some 2 := by decide
example : Booking.extract_star_count (str ("none here")) = none := by decide
example : Booking.extract_star_count (str ("")) = none := by decide

theorem dropWhile_head_not {p : Char → Bool} (l : Str) (c : Char) (cs : Str)
    (h : l.dropWhile p = c :: cs) : ¬ p c := by
  induction l with
  | nil => simp at h
  | cons x xs ih =>
    by_cases hx : p x
    · rw [List.dropWhile_cons_of_pos hx] at h
      exact ih h
    · rw [List.dropWhile_cons_of_neg hx] at h
      obtain rfl : x = c := (List.cons_eq_cons.mp h).1
      exact hx

theorem not_sp_of_digDot (c : Char) (h : isDigDot c = true) : ¬ isSp c = true := by
  intro hs
  simp only [isDigDot, isDig, isSp, Bool.or_eq_true, decide_eq_true_eq] at h hs
  rcases hs with rfl | rfl | rfl | rfl | rfl | rfl <;>
    rcases h with ⟨h1, h2⟩ | h1 <;> revert h1 <;> decide

theorem not_sp_of_digComma (c : Char) (h : (isDig c ∨ c = ',') ) : ¬ isSp c = true := by
  intro hs
  simp only [isDig, isSp, decide_eq_true_eq] at h hs
  rcases hs with rfl | rfl | rfl | rfl | rfl | rfl <;>
    rcases h with h1 | h1 <;> revert h1 <;> decide

/-- declarative reading of one-position matching of `Scored\s+([\d.]+)`:
the literal `Scored`, a non-empty whitespace run, then the non-empty
captured `[\d.]` run, maximal (not followed by another `[\d.]` char). -/
def ScoredMatchAt (l t : Str) : Prop :=
  ∃ ws rest, l = str ("Scored") ++ ws ++ t ++ rest ∧ ws ≠ [] ∧
    (∀ c ∈ ws, isSp c) ∧ t ≠ [] ∧ (∀ c ∈ t, isDigDot c) ∧
    (∀ c ∈ rest.take 1, ¬ isDigDot c)

theorem matchScoredAt_eq_some (l t : Str) :
    matchScoredAt l = some t ↔ ScoredMatchAt l t := by
  constructor
  · intro h
    unfold matchScoredAt at h
    cases hsp : stripPre (str ("Scored")) l with
    | none => rw [hsp] at h; exact absurd h (by simp)
    | some r =>
      rw [hsp] at h
      simp only [List.span_eq_take_drop] at h
      split at h
      · exact absurd h (by simp)
      · rename_i hws
        split at h
        · exact absurd h (by simp)
        · rename_i htok
          obtain rfl : (r.dropWhile (isSp ·)).takeWhile (isDigDot ·) = t :=
            Option.some.inj h
          have hl : l = str ("Scored") ++ r := (stripPre_eq_some _ _ _).mp hsp
          refine ⟨r.takeWhile (isSp ·),
            (r.dropWhile (isSp ·)).dropWhile (isDigDot ·), ?_, hws, ?_, htok, ?_, ?_⟩
          · rw [hl]
            rw [List.append_assoc, List.takeWhile_append_dropWhile,
              List.append_assoc, List.takeWhile_append_dropWhile]
          · intro c hc
            exact List.mem_takeWhile_imp hc
          · intro c hc
            exact List.mem_takeWhile_imp hc
          · intro c hc
            cases hrest : (r.dropWhile (isSp ·)).dropWhile (isDigDot ·) with
            | nil => rw [hrest] at hc; simp at hc
            | cons y ys =>
              rw [hrest] at hc
              simp only [List.take_succ_cons, List.take_zero, List.mem_singleton] at hc
              subst hc
              exact fun hdd => dropWhile_head_not _ _ _ hrest hdd
  · rintro ⟨ws, rest, rfl, hws, hwsall, ht, htall, hrest⟩
    unfold matchScoredAt
    rw [(stripPre_eq_some (str ("Scored")) _ (ws ++ t ++ rest)).mpr (by simp)]
    simp only [List.span_eq_take_drop]
    have h1 : (ws ++ (t ++ rest)).takeWhile (isSp ·) = ws ∧
        (ws ++ (t ++ rest)).dropWhile (isSp ·) = t ++ rest := by
      refine takeWhile_append_exact ws (t ++ rest) hwsall ?_
      intro c hc
      cases t with
      | nil => exact absurd rfl ht
      | cons y ys =>
        simp only [List.cons_append, List.take_succ_cons, List.take_zero,
          List.mem_singleton] at hc
        subst hc
        exact not_sp_of_digDot c (htall c (by simp))
    rw [List.append_assoc]
    rw [h1.1, h1.2]
    rw [if_neg (by simp [hws])]
    have h2 : (t ++ rest).takeWhile (isDigDot ·) = t ∧
        (t ++ rest).dropWhile (isDigDot ·) = rest :=
      takeWhile_append_exact t rest htall (by
        intro c hc
        exact fun hdd => hrest c hc hdd)
    rw [h2.1]
    rw [if_neg (by simp [ht])]

theorem matchScoredAt_eq_none (l : Str) :
    matchScoredAt l = none ↔ ∀ u, ¬ ScoredMatchAt l u := by
  cases h : matchScoredAt l with
  | none =>
    simp only [true_iff]
    intro u hu
    rw [(matchScoredAt_eq_some l u).mpr hu] at h
    exact absurd h (by simp)
  | some t =>
    have hP := (matchScoredAt_eq_some l t).mp h
    constructor
    · intro hc; exact absurd hc (by simp)
    · intro hall; exact absurd hP (hall t)

/-- declarative reading of one-position matching of `(\d[\d,]*)\s+reviews`:
the capture is a digit followed by a digit/comma run, then a non-empty
whitespace run, then the literal `reviews`. -/
def ReviewsMatchAt (l t : Str) : Prop :=
  ∃ c ds ws rest, t = c :: ds ∧ isDig c ∧ (∀ x ∈ ds, isDig x ∨ x = ',') ∧
    ws ≠ [] ∧ (∀ x ∈ ws, isSp x) ∧ l = t ++ ws ++ str ("reviews") ++ rest

theorem matchReviewsAt_cons (c : Char) (rest : Str) :
    matchReviewsAt (c :: rest) =
      if isDig c then
        if (rest.dropWhile (fun x => isDig x ∨ x = ',')).takeWhile (isSp ·) = [] then
          none
        else if (str ("reviews")).isPrefixOf
            ((rest.dropWhile (fun x => isDig x ∨ x = ',')).dropWhile (isSp ·)) then
          some (c :: rest.takeWhile (fun x => isDig x ∨ x = ','))
        else none
      else none := by
  simp only [matchReviewsAt]

theorem matchReviewsAt_eq_some (l t : Str) :
    matchReviewsAt l = some t ↔ ReviewsMatchAt l t := by
  constructor
  · intro h
    cases l with
    | nil => exact absurd h (by simp [matchReviewsAt])
    | cons c rest0 =>
      rw [matchReviewsAt_cons] at h
      by_cases hdig : isDig c
      · rw [if_pos hdig] at h
        by_cases hws :
            (rest0.dropWhile (fun x => isDig x ∨ x = ',')).takeWhile (isSp ·) = []
        · rw [if_pos hws] at h
          exact absurd h (by simp)
        · rw [if_neg hws] at h
          by_cases hpre : (str ("reviews")).isPrefixOf
              ((rest0.dropWhile (fun x => isDig x ∨ x = ',')).dropWhile (isSp ·))
          · rw [if_pos hpre] at h
            obtain rfl : c :: rest0.takeWhile (fun x => isDig x ∨ x = ',') = t :=
              Option.some.inj h
            obtain ⟨after, hafter⟩ := List.isPrefixOf_iff_prefix.mp hpre
            refine ⟨c, rest0.takeWhile (fun x => isDig x ∨ x = ','),
              (rest0.dropWhile (fun x => isDig x ∨ x = ',')).takeWhile (isSp ·),
              after, rfl, hdig, ?_, hws, ?_, ?_⟩
            · intro x hx
              have := List.mem_takeWhile_imp hx
              simpa using this
            · intro x hx
              exact List.mem_takeWhile_imp hx
            · rw [List.cons_append]
              congr 1
              simp only [List.append_eq]
              rw [List.append_assoc, List.append_assoc, hafter,
                List.takeWhile_append_dropWhile, List.takeWhile_append_dropWhile]
          · rw [if_neg hpre] at h
            exact absurd h (by simp)
      · rw [if_neg hdig] at h
        exact absurd h (by simp)
  · rintro ⟨c, ds, ws, rest, rfl, hdig, hds, hws, hwsall, rfl⟩
    have hshape : (c :: ds) ++ ws ++ str ("reviews") ++ rest =
        c :: (ds ++ (ws ++ (str ("reviews") ++ rest))) := by simp
    rw [hshape, matchReviewsAt_cons, if_pos hdig]
    have h1 := takeWhile_append_exact (p := fun x => isDig x ∨ x = ',')
      ds (ws ++ (str ("reviews") ++ rest))
      (by intro x hx; simpa using hds x hx)
      (by
        intro x hx
        cases ws with
        | nil => exact absurd rfl hws
        | cons w wt =>
          simp only [List.cons_append, List.take_succ_cons, List.take_zero,
            List.mem_singleton] at hx
          subst hx
          have hsp := hwsall x (by simp)
          simp only [decide_eq_true_eq]
          intro hcon
          exact absurd hsp (not_sp_of_digComma x hcon))
    rw [h1.2]
    have h2 := takeWhile_append_exact (p := (isSp ·)) ws (str ("reviews") ++ rest)
      hwsall
      (by
        intro x hx
        simp only [str] at hx
        simp only [List.cons_append, List.take_succ_cons, List.take_zero,
          List.mem_singleton] at hx
        subst hx
        decide)
    rw [h2.1, h2.2]
    rw [if_neg hws]
    rw [if_pos (List.isPrefixOf_iff_prefix.mpr ⟨rest, rfl⟩)]
    rw [h1.1]

theorem matchReviewsAt_eq_none (l : Str) :
    matchReviewsAt l = none ↔ ∀ u, ¬ ReviewsMatchAt l u := by
  cases h : matchReviewsAt l with
  | none =>
    simp only [true_iff]
    intro u hu
    rw [(matchReviewsAt_eq_some l u).mpr hu] at h
    exact absurd h (by simp)
  | some t =>
    have hP := (matchReviewsAt_eq_some l t).mp h
    constructor
    · intro hc; exact absurd hc (by simp)
    · intro hall; exact absurd hP (hall t)

/-- declarative reading of one-position matching of `([\d.]+)`: the
capture is the maximal non-empty run of `[\d.]` characters. -/
def NumMatchAt (l t : Str) : Prop :=
  ∃ rest, l = t ++ rest ∧ t ≠ [] ∧ (∀ c ∈ t, isDigDot c) ∧
    (∀ c ∈ rest.take 1, ¬ isDigDot c)

theorem matchNumAt_cons (c : Char) (rest : Str) :
    matchNumAt (c :: rest) =
      if isDigDot c then some ((c :: rest).takeWhile (isDigDot ·)) else none := rfl

theorem matchNumAt_eq_some (l t : Str) :
    matchNumAt l = some t ↔ NumMatchAt l t := by
  constructor
  · intro h
    cases l with
    | nil => exact absurd h (by simp [matchNumAt])
    | cons c rest0 =>
      rw [matchNumAt_cons] at h
      by_cases hdd : isDigDot c
      · rw [if_pos hdd] at h
        obtain rfl : (c :: rest0).takeWhile (isDigDot ·) = t := Option.some.inj h
        refine ⟨(c :: rest0).dropWhile (isDigDot ·), ?_, ?_, ?_, ?_⟩
        · rw [List.takeWhile_append_dropWhile]
        · simp [List.takeWhile_cons, hdd]
        · intro x hx
          exact List.mem_takeWhile_imp hx
        · intro x hx
          cases hrest : (c :: rest0).dropWhile (isDigDot ·) with
          | nil => rw [hrest] at hx; simp at hx
          | cons y ys =>
            rw [hrest] at hx
            simp only [List.take_succ_cons, List.take_zero, List.mem_singleton] at hx
            subst hx
            exact fun hcon => dropWhile_head_not _ _ _ hrest hcon
      · rw [if_neg hdd] at h
        exact absurd h (by simp)
  · rintro ⟨rest, rfl, ht, htall, hrest⟩
    cases t with
    | nil => exact absurd rfl ht
    | cons c cs =>
      rw [List.cons_append, matchNumAt_cons, if_pos (htall c (by simp))]
      have h1 : ((c :: cs ++ rest).takeWhile (isDigDot ·)) = c :: cs ∧
          ((c :: cs ++ rest).dropWhile (isDigDot ·)) = rest :=
        takeWhile_append_exact _ _ htall (fun x hx hcon => hrest x hx hcon)
      rw [← List.cons_append]
      rw [h1.1]

theorem matchNumAt_eq_none (l : Str) :
    matchNumAt l = none ↔ ∀ u, ¬ NumMatchAt l u := by
  cases h : matchNumAt l with
  | none =>
    simp only [true_iff]
    intro u hu
    rw [(matchNumAt_eq_some l u).mpr hu] at h
    exact absurd h (by simp)
  | some t =>
    have hP := (matchNumAt_eq_some l t).mp h
    constructor
    · intro hc; exact absurd hc (by simp)
    · intro hall; exact absurd hP (hall t)

theorem findScored_iff (s t : Str) :
    findScored s = some t ↔ ∃ n, ScoredMatchAt (s.drop n) t ∧
      ∀ m, m < n → ∀ u, ¬ ScoredMatchAt (s.drop m) u := by
  rw [show findScored s = scan matchScoredAt s from rfl,
    scan_eq_some matchScoredAt (by decide) s t]
  constructor
  · rintro ⟨n, hn, hall⟩
    exact ⟨n, (matchScoredAt_eq_some _ _).mp hn,
      fun m hm => (matchScoredAt_eq_none _).mp (hall m hm)⟩
  · rintro ⟨n, hn, hall⟩
    exact ⟨n, (matchScoredAt_eq_some _ _).mpr hn,
      fun m hm => (matchScoredAt_eq_none _).mpr (hall m hm)⟩

theorem findReviews_iff (s t : Str) :
    findReviews s = some t ↔ ∃ n, ReviewsMatchAt (s.drop n) t ∧
      ∀ m, m < n → ∀ u, ¬ ReviewsMatchAt (s.drop m) u := by
  rw [show findReviews s = scan matchReviewsAt s from rfl,
    scan_eq_some matchReviewsAt (by decide) s t]
  constructor
  · rintro ⟨n, hn, hall⟩
    exact ⟨n, (matchReviewsAt_eq_some _ _).mp hn,
      fun m hm => (matchReviewsAt_eq_none _).mp (hall m hm)⟩
  · rintro ⟨n, hn, hall⟩
    exact ⟨n, (matchReviewsAt_eq_some _ _).mpr hn,
      fun m hm => (matchReviewsAt_eq_none _).mpr (hall m hm)⟩

theorem findNum_iff (s t : Str) :
    findNum s = some t ↔ ∃ n, NumMatchAt (s.drop n) t ∧
      ∀ m, m < n → ∀ u, ¬ NumMatchAt (s.drop m) u := by
  rw [show findNum s = scan matchNumAt s from rfl,
    scan_eq_some matchNumAt (by decide) s t]
  constructor
  · rintro ⟨n, hn, hall⟩
    exact ⟨n, (matchNumAt_eq_some _ _).mp hn,
      fun m hm => (matchNumAt_eq_none _).mp (hall m hm)⟩
  · rintro ⟨n, hn, hall⟩
    exact ⟨n, (matchNumAt_eq_some _ _).mpr hn,
      fun m hm => (matchNumAt_eq_none _).mpr (hall m hm)⟩

theorem findScored_eq_none_of (s : Str)
    (h : ∀ n, ∀ u, ¬ ScoredMatchAt (s.drop n) u) : findScored s = none := by
  cases hf : findScored s with
  | none => rfl
  | some t =>
    obtain ⟨n, hn, -⟩ := (findScored_iff s t).mp hf
    exact absurd hn (h n t)

/-- C4: the rating normalizer is NOT total: on the input "Scored ." the
captured token "." is passed to `float()`, which raises `ValueError`
(there is no digit in the token); the test.py variant raises on "." for
the same reason.  This refutes the claim that every normalizer maps every
input string to a typed value or Absent without raising. -/
theorem C4_cex_clean_rating_raises :
    Booking.clean_rating (str ("Scored .")) = .error () ∧
    TestPy.clean_rating (str (".")) = .error () := by decide

/-- C4 amended: normalization is total except for the rating score
conversion: `clean_rating` raises `ValueError` exactly when the leftmost
`Scored\s+([\d.]+)` match captures a token that `float()` cannot parse
(and the test.py variant likewise for its leftmost `([\d.]+)` match on
non-empty input); all other normalizer paths return a typed value or
Absent. -/
theorem clean_rating_error_iff (s : Str) :
    Booking.clean_rating s = .error () ↔
      ∃ t, findScored s = some t ∧ pyFloat t = none := by
  unfold Booking.clean_rating
  cases hf : findScored s with
  | none => simp
  | some tok =>
    cases hp : pyFloat tok with
    | none => simp [hp]
    | some d => simp [hp]

theorem testpy_clean_rating_error_iff (s : Str) :
    TestPy.clean_rating s = .error () ↔
      s ≠ [] ∧ ∃ t, findNum s = some t ∧ pyFloat t = none := by
  unfold TestPy.clean_rating
  by_cases hs : s = []
  · rw [if_pos hs]
    simp [hs]
  · rw [if_neg hs]
    cases hf : findNum s with
    | none => simp [hs]
    | some tok =>
      cases hp : pyFloat tok with
      | none => simp [hs, hp]
      | some d => simp [hs, hp]

theorem C4_normalization_totality_amended :
    (∀ s, Booking.clean_rating s = .error () ↔
      ∃ n t, ScoredMatchAt (s.drop n) t ∧
        (∀ m, m < n → ∀ u, ¬ ScoredMatchAt (s.drop m) u) ∧ pyFloat t = none)
    ∧ (∀ s, TestPy.clean_rating s = .error () ↔
      s ≠ [] ∧ ∃ n t, NumMatchAt (s.drop n) t ∧
        (∀ m, m < n → ∀ u, ¬ NumMatchAt (s.drop m) u) ∧ pyFloat t = none) := by
  constructor
  · intro s
    rw [clean_rating_error_iff]
    constructor
    · rintro ⟨t, hf, hp⟩
      obtain ⟨n, hP, hall⟩ := (findScored_iff s t).mp hf
      exact ⟨n, t, hP, hall, hp⟩
    · rintro ⟨n, t, hP, hall, hp⟩
      exact ⟨t, (findScored_iff s t).mpr ⟨n, hP, hall⟩, hp⟩
  · intro s
    rw [testpy_clean_rating_error_iff]
    constructor
    · rintro ⟨hs, t, hf, hp⟩
      obtain ⟨n, hP, hall⟩ := (findNum_iff s t).mp hf
      exact ⟨hs, n, t, hP, hall, hp⟩
    · rintro ⟨hs, n, t, hP, hall, hp⟩
      exact ⟨hs, t, (findNum_iff s t).mpr ⟨n, hP, hall⟩, hp⟩

theorem clean_rating_ok_shape (s : Str) (r : Rating)
    (h : Booking.clean_rating s = .ok r) :
    r.reviews = (findReviews s).map reviewsCount ∧
      ((r.score = none ∧ findScored s = none) ∨
        ∃ tok d, findScored s = some tok ∧ pyFloat tok = some d ∧ r.score = some d) := by
  unfold Booking.clean_rating at h
  cases hf : findScored s with
  | none =>
    rw [hf] at h
    simp only [Except.ok.injEq] at h
    subst h
    exact ⟨rfl, Or.inl ⟨rfl, rfl⟩⟩
  | some tok =>
    rw [hf] at h
    simp only at h
    cases hp : pyFloat tok with
    | none =>
      rw [hp] at h
      exact absurd h (by simp)
    | some d =>
      rw [hp] at h
      simp only [Except.ok.injEq] at h
      subst h
      exact ⟨rfl, Or.inr ⟨tok, d, rfl, hp, rfl⟩⟩

/-- C5 counterexample: on "8.7 Excellent 123 reviews" the first decimal
number occurring in the text is 8.7, yet the production rating normalizer
returns score Absent (its regex requires the literal `Scored` anchor);
review_count is still extracted.  This refutes "score equals the first
decimal number occurring in the text". -/
theorem C5_cex_score_requires_scored_anchor :
    Booking.clean_rating (str ("8.7 Excellent 123 reviews")) =
      .ok ⟨none, some 123⟩ ∧
    findNum (str ("8.7 Excellent 123 reviews")) = some (str ("8.7")) ∧
    pyFloat (str ("8.7")) = some ⟨87, 1⟩ := by decide

/-- C5 amended: for the production scraper, the score is the `float()`
value of the token captured by the leftmost `Scored\s+([\d.]+)` match
(Absent when there is no such match), the review count is the integer
(commas removed) captured by the leftmost `(\d[\d,]*)\s+reviews` match
(Absent when there is no such match), and the two sub-fields are
determined independently. -/
theorem C5_rating_normalizer_amended (s : Str) (r : Rating)
    (h : Booking.clean_rating s = .ok r) :
    (∀ d, r.score = some d ↔ ∃ n t, ScoredMatchAt (s.drop n) t ∧
        (∀ m, m < n → ∀ u, ¬ ScoredMatchAt (s.drop m) u) ∧ pyFloat t = some d) ∧
    (∀ k, r.reviews = some k ↔ ∃ n t, ReviewsMatchAt (s.drop n) t ∧
        (∀ m, m < n → ∀ u, ¬ ReviewsMatchAt (s.drop m) u) ∧ reviewsCount t = k) := by
  obtain ⟨hrev, hscore⟩ := clean_rating_ok_shape s r h
  constructor
  · intro d
    rcases hscore with ⟨hnone, hf⟩ | ⟨tok, d0, hf, hp, hsome⟩
    · rw [hnone]
      constructor
      · intro hc; exact absurd hc (by simp)
      · rintro ⟨n, t, hP, hall, hpt⟩
        have : findScored s = some t := (findScored_iff s t).mpr ⟨n, hP, hall⟩
        rw [hf] at this
        exact absurd this (by simp)
    · rw [hsome]
      constructor
      · intro hc
        obtain rfl : d0 = d := Option.some.inj hc
        obtain ⟨n, hP, hall⟩ := (findScored_iff s tok).mp hf
        exact ⟨n, tok, hP, hall, hp⟩
      · rintro ⟨n, t, hP, hall, hpt⟩
        have : findScored s = some t := (findScored_iff s t).mpr ⟨n, hP, hall⟩
        rw [hf] at this
        obtain rfl : tok = t := Option.some.inj this
        rw [hp] at hpt
        exact congrArg some (Option.some.inj hpt)
  · intro k
    rw [hrev]
    constructor
    · intro hc
      cases hfr : findReviews s with
      | none => rw [hfr] at hc; exact absurd hc (by simp)
      | some t =>
        rw [hfr] at hc
        have hc2 : some (reviewsCount t) = some k := hc
        obtain rfl : reviewsCount t = k := Option.some.inj hc2
        obtain ⟨n, hP, hall⟩ := (findReviews_iff s t).mp hfr
        exact ⟨n, t, hP, hall, rfl⟩
    · rintro ⟨n, t, hP, hall, hk⟩
      have hfr : findReviews s = some t := (findReviews_iff s t).mpr ⟨n, hP, hall⟩
      rw [hfr]
      exact congrArg some hk

/-- witness for the amended C5 theorem at a concrete rating text. -/
theorem C5_rating_normalizer_amended_witness :
    Booking.clean_rating (str ("Scored 8.7 1,234 reviews")) =
      .ok ⟨some ⟨87, 1⟩, some 1234⟩ ∧
    ((∀ d, (some (⟨87, 1⟩ : Dec) : Option Dec) = some d ↔
        ∃ n t, ScoredMatchAt ((str ("Scored 8.7 1,234 reviews")).drop n) t ∧
          (∀ m, m < n → ∀ u, ¬ ScoredMatchAt ((str ("Scored 8.7 1,234 reviews")).drop m) u) ∧
          pyFloat t = some d) ∧
     (∀ k, (some 1234 : Option ℕ) = some k ↔
        ∃ n t, ReviewsMatchAt ((str ("Scored 8.7 1,234 reviews")).drop n) t ∧
          (∀ m, m < n → ∀ u, ¬ ReviewsMatchAt ((str ("Scored 8.7 1,234 reviews")).drop m) u) ∧
          reviewsCount t = k)) :=
  ⟨by decide, C5_rating_normalizer_amended (str ("Scored 8.7 1,234 reviews"))
    ⟨some ⟨87, 1⟩, some 1234⟩ (by decide)⟩

/-- state of the `scroll_and_wait_script` polling loop: `window.lastHeight`
and `window.retries` (initialised to 0 and 5 on the first tick). -/
structure ScrollState where
  lastHeight : ℕ
  retries : ℤ
deriving DecidableEq, Repr

def scrollInit : ScrollState := ⟨0, 5⟩

/-- one poll tick of `scroll_and_wait_script`: if the measured height
equals the last recorded height, decrement the counter and signal
completion when it reaches 0; on ANY change of height, reset the counter
to 5; always record the current height. -/
def scrollStep (s : ScrollState) (h : ℕ) : ScrollState × Bool :=
  if h = s.lastHeight then
    (⟨h, s.retries - 1⟩, s.retries - 1 ≤ 0)
  else
    (⟨h, 5⟩, false)

/-- drive the detector over a list of height measurements; returns the
1-based index of the first tick that signals completion, if any. -/
def runDetector : ScrollState → List ℕ → Option ℕ
  | _, [] => none
  | s, h :: t =>
    if h = s.lastHeight then
      if s.retries - 1 ≤ 0 then some 1
      else (runDetector ⟨h, s.retries - 1⟩ t).map (· + 1)
    else (runDetector ⟨h, 5⟩ t).map (· + 1)

theorem runDetector_cons_eqn (s : ScrollState) (h : ℕ) (t : List ℕ) :
    runDetector s (h :: t) =
      if h = s.lastHeight then
        if s.retries - 1 ≤ 0 then some 1
        else (runDetector ⟨h, s.retries - 1⟩ t).map (· + 1)
      else (runDetector ⟨h, 5⟩ t).map (· + 1) := rfl

/-- each recursion step of `runDetector` is one `scrollStep` tick. -/
theorem runDetector_cons (s : ScrollState) (h : ℕ) (t : List ℕ) :
    runDetector s (h :: t) =
      match scrollStep s h with
      | (_, true) => some 1
      | (s2, false) => (runDetector s2 t).map (· + 1) := by
  rw [runDetector_cons_eqn]
  unfold scrollStep
  by_cases hh : h = s.lastHeight
  · rw [if_pos hh, if_pos hh]
    by_cases hr : s.retries - 1 ≤ 0
    · rw [if_pos hr]
      simp [hh, hr]
    · rw [if_neg hr]
      simp [hh, hr]
  · rw [if_neg hh, if_neg hh]

/-- a full run from the script's initial state. -/
def firesAt (hs : List ℕ) : Option ℕ := runDetector scrollInit hs

example : firesAt [10, 20, 30, 30, 30, 30, 30, 30] = some 8 := by decide
example : firesAt [10, 20, 30, 30, 30, 30, 30] = none := by decide
example : firesAt [10, 10, 10, 10, 10, 10] = some 6 := by decide

theorem run_rising (inc : List ℕ) (last : ℕ) (rest : List ℕ)
    (hchain : List.Chain' (· < ·) (last :: inc)) :
    runDetector ⟨last, 5⟩ (inc ++ rest) =
      (runDetector ⟨inc.getLastD last, 5⟩ rest).map (· + inc.length) := by
  induction inc generalizing last with
  | nil =>
    simp only [List.nil_append, List.getLastD_nil, List.length_nil]
    cases runDetector ⟨last, 5⟩ rest with
    | none => simp
    | some n => simp
  | cons x xs ih =>
    have hlt : last < x := (List.chain'_cons.mp hchain).1
    have hch2 : List.Chain' (· < ·) (x :: xs) := (List.chain'_cons.mp hchain).2
    simp only [List.cons_append]
    have hstep : runDetector ⟨last, 5⟩ (x :: (xs ++ rest)) =
        (runDetector ⟨x, 5⟩ (xs ++ rest)).map (· + 1) := by
      rw [runDetector_cons_eqn]
      rw [if_neg (show ¬ x = (⟨last, 5⟩ : ScrollState).lastHeight by
        simp only
        omega)]
    rw [hstep, ih x hch2]
    simp only [List.getLastD_cons, List.length_cons]
    cases runDetector ⟨(xs.getLastD x), 5⟩ rest with
    | none => simp
    | some n =>
      exact congrArg some (by
        show n + xs.length + 1 = n + (xs.length + 1)
        omega)

theorem run_plateau (p : ℕ) : ∀ (r : ℤ) (v : ℕ), 1 ≤ r → r.toNat ≤ p →
    runDetector ⟨v, r⟩ (List.replicate p v) = some r.toNat := by
  induction p with
  | zero =>
    intro r v hr hp
    omega
  | succ q ih =>
    intro r v hr hp
    rw [List.replicate_succ]
    rw [runDetector_cons_eqn]
    rw [if_pos (show v = (⟨v, r⟩ : ScrollState).lastHeight from rfl)]
    by_cases hr1 : (⟨v, r⟩ : ScrollState).retries - 1 ≤ 0
    · rw [if_pos hr1]
      simp only at hr1
      have : r = 1 := by omega
      subst this
      simp
    · rw [if_neg hr1]
      simp only at hr1
      rw [ih (r - 1) v (by omega) (by omega)]
      exact congrArg some (by
        show (r - 1).toNat + 1 = r.toNat
        omega)

/-- C9 counterexample: on a tick where the measured extent SHRANK (10 to
5, which is "not grown beyond the last recorded extent"), the script
RESETS the counter to 5 instead of decrementing it to 4, because its test
is `currentHeight === lastHeight`, not growth. -/
theorem C9_cex_reset_on_shrink :
    (scrollStep ⟨10, 5⟩ 5).1.retries = 5 ∧ ((5 : ℤ) - 1 ≠ 5) := by decide

/-- C9 amended: the stability counter is reset to 5 on every tick where
the measurement DIFFERS from the last recorded extent (growth or
shrinkage) and decremented when it is unchanged, signalling completion
when it reaches zero; for every extent sequence that strictly increases
(starting above the initial recorded extent 0) and then stays constant
for at least 5 ticks, the detector signals completion exactly at tick
(rise length + 5) — i.e. exactly after 5 consecutive unchanged
measurements — and not earlier. -/
theorem C9_load_detector_amended :
    (∀ s h, h ≠ s.lastHeight →
      (scrollStep s h).1 = ⟨h, 5⟩ ∧ (scrollStep s h).2 = false) ∧
    (∀ s h, h = s.lastHeight →
      (scrollStep s h).1 = ⟨h, s.retries - 1⟩ ∧
      ((scrollStep s h).2 = true ↔ s.retries ≤ 1)) ∧
    (∀ (inc : List ℕ) (v p : ℕ), List.Chain' (· < ·) (0 :: inc) →
      v = inc.getLastD 0 → 5 ≤ p →
      firesAt (inc ++ List.replicate p v) = some (inc.length + 5)) := by
  refine ⟨?_, ?_, ?_⟩
  · intro s h hne
    unfold scrollStep
    rw [if_neg (fun hc => hne hc)]
    exact ⟨rfl, rfl⟩
  · intro s h heq
    unfold scrollStep
    rw [if_pos heq]
    refine ⟨rfl, ?_⟩
    simp only [decide_eq_true_eq]
    omega
  · intro inc v p hchain hv hp
    unfold firesAt scrollInit
    rw [run_rising inc 0 (List.replicate p v) hchain]
    rw [← hv]
    rw [run_plateau p 5 v (by omega) (by simpa using hp)]
    exact congrArg some (by
      show (5 : ℤ).toNat + inc.length = inc.length + 5
      omega)

/-- witness for the amended C9 theorem on the scripted sequence
10, 20, 30 then five unchanged measurements of 30: Stable exactly at
tick 8. -/
theorem C9_load_detector_amended_witness :
    (List.Chain' (· < ·) (0 :: [10, 20, 30]) ∧ (30 : ℕ) = [10, 20, 30].getLastD 0 ∧
      (5 : ℕ) ≤ 5) ∧
    firesAt ([10, 20, 30] ++ List.replicate 5 30) = some ([10, 20, 30].length + 5) :=
  ⟨⟨by norm_num [List.chain'_cons, List.chain'_singleton], by decide, by decide⟩,
    C9_load_detector_amended.2.2 [10, 20, 30] 30 5
      (by norm_num [List.chain'_cons, List.chain'_singleton]) (by decide) (by decide)⟩

theorem splitChar_cons_eqn (c x : Char) (xs : Str) :
    splitChar c (x :: xs) =
      if x = c then [] :: splitChar c xs
      else
        match splitChar c xs with
        | [] => [[x]]
        | h :: t => (x :: h) :: t := rfl

theorem splitChar_append_cons (c : Char) (a rest : Str) (ha : c ∉ a) :
    splitChar c (a ++ c :: rest) = a :: splitChar c rest := by
  induction a with
  | nil => simp [splitChar]
  | cons x xs ih =>
    simp only [List.mem_cons, not_or] at ha
    have hxc : ¬ x = c := fun hc => ha.1 hc.symm
    rw [List.cons_append, splitChar_cons_eqn, if_neg hxc, ih ha.2]

theorem splitChar_joinChar_head (c : Char) (a : Str) (r : List Str) (ha : c ∉ a) :
    ∃ t, splitChar c (joinChar c (a :: r)) = a :: t := by
  cases r with
  | nil => exact ⟨[], (splitChar_singleton c a a).mpr ⟨rfl, ha⟩⟩
  | cons b t =>
    rw [show joinChar c (a :: b :: t) = a ++ c :: joinChar c (b :: t) from rfl]
    exact ⟨splitChar c (joinChar c (b :: t)), splitChar_append_cons c a _ ha⟩

def digitChar (d : ℕ) : Char := Char.ofNat (48 + d)

/-- decimal rendering of a natural number (fuel-based so that it reduces). -/
def natToStrAux : ℕ → ℕ → Str
  | 0, _ => []
  | fuel + 1, n =>
    if n < 10 then [digitChar n]
    else natToStrAux fuel (n / 10) ++ [digitChar (n % 10)]

/-- Python `str(z)` for an integer (an f-string interpolation of an int). -/
def intToStr (z : ℤ) : Str :=
  match z with
  | .ofNat n => natToStrAux (n + 1) n
  | .negSucc m => '-' :: natToStrAux (m + 2) (m + 1)

namespace Booking

/-- one filter item of `build_search_url`: a `distance=` filter is
re-rendered through `int(...)` (a non-integer value raises `ValueError`,
modelled as `none`); every other filter passes through unchanged. -/
def formatFilter (f : Str) : Option Str :=
  if (str ("distance=")).isPrefixOf f then
    match (splitChar '=' f).get? 1 with
    | none => none
    | some v =>
      match pyInt v with
      | none => none
      | some n => some (str ("distance=") ++ intToStr n)
  else some f

/-- the `nflt` parameter of `build_search_url` as its `;`-joined token
list: always starts with the hotel-category token `ht_id=204`; caller
filters (when the list is truthy) are appended. -/
def nfltTokens (filters : Option (List Str)) : Option (List Str) :=
  match filters with
  | none => some [str ("ht_id=204")]
  | some [] => some [str ("ht_id=204")]
  | some fs =>
    match fs.mapM formatFilter with
    | none => none
    | some fmt => some (str ("ht_id=204") :: fmt)

/-- `ModernBookingScraper.build_search_url` up to URL encoding: the query
parameter dictionary (the returned URL is
`base_url + "/searchresults.html?" + urlencode(params)`). -/
def build_search_url (location check_in check_out : Str) (adults : ℤ)
    (filters : Option (List Str)) (currency : Str) :
    Option (List (Str × Str)) :=
  (nfltTokens filters).map (fun toks =>
    [(str ("ss"), location), (str ("checkin"), check_in),
     (str ("checkout"), check_out), (str ("group_adults"), intToStr adults),
     (str ("selected_currency"), currency),
     (str ("order"), str ("popularity")),
     (str ("nflt"), joinChar ';' toks)])

end Booking

example : Booking.build_search_url (str ("Makkah")) (str ("2025-06-01"))
    (str ("2025-06-05")) 2 (some [str ("class=4"), str ("distance=3000")])
    (str ("USD")) =
    some [(str ("ss"), str ("Makkah")), (str ("checkin"), str ("2025-06-01")),
      (str ("checkout"), str ("2025-06-05")), (str ("group_adults"), str ("2")),
      (str ("selected_currency"), str ("USD")),
      (str ("order"), str ("popularity")),
      (str ("nflt"), str ("ht_id=204;class=4;distance=3000"))] := by decide

example : Booking.build_search_url (str ("X")) (str ("a")) (str ("b")) 2
    (some [str ("distance=abc")]) (str ("USD")) = none := by decide

/-- C10: whenever `build_search_url` produces a query-parameter set (for
any location, dates, adults, currency, and any caller filters including
none at all), the `nflt` parameter's `;`-separated token list contains the
hotel-category token `ht_id=204`. -/
theorem C10_hotel_category_filter_always_applied
    (location check_in check_out : Str) (adults : ℤ)
    (filters : Option (List Str)) (currency : Str) (ps : List (Str × Str))
    (h : Booking.build_search_url location check_in check_out adults filters
      currency = some ps) :
    ∃ v, (str ("nflt"), v) ∈ ps ∧ str ("ht_id=204") ∈ splitChar ';' v := by
  unfold Booking.build_search_url at h
  cases hn : Booking.nfltTokens filters with
  | none => rw [hn] at h; exact absurd h (by simp)
  | some toks =>
    rw [hn] at h
    have hps : ((fun toks => [(str ("ss"), location), (str ("checkin"), check_in),
        (str ("checkout"), check_out), (str ("group_adults"), intToStr adults),
        (str ("selected_currency"), currency),
        (str ("order"), str ("popularity")),
        (str ("nflt"), joinChar ';' toks)]) toks) = ps := Option.some.inj h
    have htoks : ∃ fmt, toks = str ("ht_id=204") :: fmt := by
      unfold Booking.nfltTokens at hn
      match filters with
      | none => exact ⟨[], (Option.some.inj hn).symm⟩
      | some [] => exact ⟨[], (Option.some.inj hn).symm⟩
      | some (f :: fs) =>
        simp only at hn
        cases hm : (f :: fs).mapM Booking.formatFilter with
        | none => rw [hm] at hn; exact absurd hn (by simp)
        | some fmt =>
          rw [hm] at hn
          exact ⟨fmt, (Option.some.inj hn).symm⟩
    obtain ⟨fmt, rfl⟩ := htoks
    obtain ⟨t, ht⟩ := splitChar_joinChar_head ';' (str ("ht_id=204")) fmt (by decide)
    refine ⟨joinChar ';' (str ("ht_id=204") :: fmt), ?_, ?_⟩
    · rw [← hps]
      simp
    · rw [ht]
      simp

/-- witness for C10 at a concrete query with both a class and a distance
filter. -/
theorem C10_hotel_category_filter_always_applied_witness :
    (Booking.build_search_url (str ("Makkah")) (str ("2025-06-01"))
      (str ("2025-06-05")) 2 (some [str ("class=4"), str ("distance=3000")])
      (str ("USD")) =
      some [(str ("ss"), str ("Makkah")), (str ("checkin"), str ("2025-06-01")),
        (str ("checkout"), str ("2025-06-05")),
        (str ("group_adults"), str ("2")),
        (str ("selected_currency"), str ("USD")),
        (str ("order"), str ("popularity")),
        (str ("nflt"), str ("ht_id=204;class=4;distance=3000"))]) ∧
    ∃ v, (str ("nflt"), v) ∈
        [(str ("ss"), str ("Makkah")), (str ("checkin"), str ("2025-06-01")),
         (str ("checkout"), str ("2025-06-05")),
         (str ("group_adults"), str ("2")),
         (str ("selected_currency"), str ("USD")),
         (str ("order"), str ("popularity")),
         (str ("nflt"), str ("ht_id=204;class=4;distance=3000"))] ∧
      str ("ht_id=204") ∈ splitChar ';' v :=
  ⟨by decide,
    C10_hotel_category_filter_always_applied (str ("Makkah"))
      (str ("2025-06-01")) (str ("2025-06-05")) 2
      (some [str ("class=4"), str ("distance=3000")]) (str ("USD")) _ (by decide)⟩

namespace Agoda

structure Date where
  year : ℕ
  month : ℕ
  day : ℕ
deriving DecidableEq, Repr

def isLeap (y : ℕ) : Bool := y % 4 = 0 ∧ (y % 100 ≠ 0 ∨ y % 400 = 0)

def daysInMonth (y m : ℕ) : ℕ :=
  if m = 2 then (if isLeap y then 29 else 28)
  else if m = 4 ∨ m = 6 ∨ m = 9 ∨ m = 11 then 30
  else 31

/-- CPython `datetime.strptime(s, '%Y-%m-%d')`: `%Y` is exactly four
digits, `%m` matches `1[0-2]|0[1-9]|[1-9]` (one or two digits, value
1..12, zero padding optional), `%d` matches `3[01]|[12]\d|0[1-9]|[1-9]`
(one or two digits, value 1..31), the whole string must be consumed, and
the resulting date must exist on the calendar (`datetime` construction
rejects e.g. February 30 and year 0). -/
def strptimeYMD (s : Str) : Option Date :=
  match splitChar '-' s with
  | [y, m, d] =>
    if y.length = 4 ∧ y.all (isDig ·) ∧
        (m.length = 1 ∨ m.length = 2) ∧ m.all (isDig ·) ∧
        1 ≤ natOfDigits m ∧ natOfDigits m ≤ 12 ∧
        (d.length = 1 ∨ d.length = 2) ∧ d.all (isDig ·) ∧
        1 ≤ natOfDigits d ∧ natOfDigits d ≤ 31 ∧
        1 ≤ natOfDigits y ∧
        natOfDigits d ≤ daysInMonth (natOfDigits y) (natOfDigits m) then
      some ⟨natOfDigits y, natOfDigits m, natOfDigits d⟩
    else none
  | _ => none

/-- `validate_date_format` from agodaScrapper.py. -/
def validate_date_format (s : Str) : Bool := (strptimeYMD s).isSome

/-- `datetime` comparison, lexicographic on (year, month, day). -/
def Date.lt (a b : Date) : Bool :=
  a.year < b.year ∨ (a.year = b.year ∧
    (a.month < b.month ∨ (a.month = b.month ∧ a.day < b.day)))

inductive ValErr where
  | emptyLocation
  | badCheckIn
  | badCheckOut
  | badAdults
  | checkOutNotAfterCheckIn
deriving DecidableEq, Repr

/-- the input-validation prefix of `agoda_scraper` (executed before any
browser interaction); `some e` models the raised `ValueError`. -/
def agoda_validate (location check_in check_out : Str) (adults : ℤ) :
    Option ValErr :=
  if trimWs location = [] then some .emptyLocation
  else if validate_date_format check_in = false then some .badCheckIn
  else if validate_date_format check_out = false then some .badCheckOut
  else if adults < 1 ∨ 10 < adults then some .badAdults
  else
    match strptimeYMD check_in, strptimeYMD check_out with
    | some d1, some d2 =>
      if Date.lt d1 d2 then none else some .checkOutNotAfterCheckIn
    | _, _ => none

/-- `agoda_scraper`: validation first; the browser interaction `browse`
(homepage visit, search, scrape) runs only when validation passes, so an
input-validation error is raised before any navigation occurs. -/
def agoda_scraper {α : Type} (location check_in check_out : Str)
    (adults : ℤ) (browse : Unit → α) : Except ValErr α :=
  match agoda_validate location check_in check_out adults with
  | some e => .error e
  | none => .ok (browse ())

/-- exact textual match of "YYYY-MM-DD" (4 digits, dash, 2 digits, dash,
2 digits) — the format the claim says is enforced. -/
def isExactYMD (s : Str) : Bool :=
  match splitChar '-' s with
  | [y, m, d] =>
    y.length = 4 ∧ y.all (isDig ·) ∧ m.length = 2 ∧ m.all (isDig ·) ∧
      d.length = 2 ∧ d.all (isDig ·)
  | _ => false

end Agoda

example : Agoda.validate_date_format (str ("2025-06-07")) = true := by decide
example : Agoda.validate_date_format (str ("2025-6-7")) = true := by decide
example : Agoda.validate_date_format (str ("2025-02-30")) = false := by decide
example : Agoda.validate_date_format (str ("2025-13-01")) = false := by decide
example : Agoda.validate_date_format (str ("999-01-01")) = false := by decide
example : Agoda.validate_date_format (str ("2024-02-29")) = true := by decide
example : Agoda.validate_date_format (str ("2025-02-29")) = false := by decide

/-- C3 counterexample: "2025-6-7" is not an exact match of YYYY-MM-DD,
yet validation passes it (strptime accepts non-zero-padded month/day), so
no input-validation error is raised; conversely "2025-02-30" is an exact
textual match of YYYY-MM-DD yet an error IS raised (no such calendar
day). -/
theorem C3_cex_lax_date_validation :
    Agoda.isExactYMD (str ("2025-6-7")) = false ∧
    Agoda.agoda_validate (str ("Paris")) (str ("2025-6-7")) (str ("2025-6-9"))
      2 = none ∧
    Agoda.isExactYMD (str ("2025-02-30")) = true ∧
    Agoda.agoda_validate (str ("Paris")) (str ("2025-02-30"))
      (str ("2025-03-01")) 2 = some .badCheckIn := by decide

/-- C3 amended: `agoda_scraper` raises an input-validation error before
any navigation exactly when the location is empty after stripping
whitespace, or a date is not accepted by `strptime('%Y-%m-%d')` (four
digit year, month 1-12 and day valid for that month with optional zero
padding — NOT an exact textual YYYY-MM-DD match), or adults is outside
1..10, or check_out is not after check_in; when every condition holds the
validation passes and the browser interaction runs. -/
theorem C3_input_validation_amended :
    (∀ loc ci co adults, Agoda.agoda_validate loc ci co adults = none ↔
      (trimWs loc ≠ [] ∧ (∃ d1, Agoda.strptimeYMD ci = some d1) ∧
        (∃ d2, Agoda.strptimeYMD co = some d2) ∧ 1 ≤ adults ∧ adults ≤ 10 ∧
        ∀ d1 d2, Agoda.strptimeYMD ci = some d1 →
          Agoda.strptimeYMD co = some d2 → Agoda.Date.lt d1 d2)) ∧
    (∀ (loc ci co : Str) (adults : ℤ) (browse : Unit → ℕ) e,
      Agoda.agoda_validate loc ci co adults = some e →
      Agoda.agoda_scraper loc ci co adults browse = .error e) ∧
    (∀ (loc ci co : Str) (adults : ℤ) (browse : Unit → ℕ),
      Agoda.agoda_validate loc ci co adults = none →
      Agoda.agoda_scraper loc ci co adults browse = .ok (browse ())) := by
  refine ⟨?_, ?_, ?_⟩
  · intro loc ci co adults
    unfold Agoda.agoda_validate
    by_cases h1 : trimWs loc = []
    · rw [if_pos h1]
      constructor
      · intro hc; exact absurd hc (by simp)
      · rintro ⟨hne, -⟩; exact absurd h1 hne
    · rw [if_neg h1]
      cases hci : Agoda.strptimeYMD ci with
      | none =>
        rw [if_pos (by simp [Agoda.validate_date_format, hci])]
        constructor
        · intro hc; exact absurd hc (by simp)
        · rintro ⟨-, ⟨d1, hd1⟩, -⟩
          exact absurd hd1 (by simp)
      | some d1 =>
        rw [if_neg (by simp [Agoda.validate_date_format, hci])]
        cases hco : Agoda.strptimeYMD co with
        | none =>
          rw [if_pos (by simp [Agoda.validate_date_format, hco])]
          constructor
          · intro hc; exact absurd hc (by simp)
          · rintro ⟨-, -, ⟨d2, hd2⟩, -⟩
            exact absurd hd2 (by simp)
        | some d2 =>
          rw [if_neg (by simp [Agoda.validate_date_format, hco])]
          by_cases had : adults < 1 ∨ 10 < adults
          · rw [if_pos had]
            constructor
            · intro hc; exact absurd hc (by simp)
            · rintro ⟨-, -, -, ha1, ha2, -⟩
              omega
          · rw [if_neg had]
            simp only
            by_cases hlt : Agoda.Date.lt d1 d2
            · rw [if_pos hlt]
              simp only [true_iff]
              refine ⟨h1, ⟨d1, rfl⟩, ⟨d2, rfl⟩, by omega, by omega, ?_⟩
              intro e1 e2 he1 he2
              obtain rfl : d1 = e1 := Option.some.inj he1
              obtain rfl : d2 = e2 := Option.some.inj he2
              exact hlt
            · rw [if_neg hlt]
              constructor
              · intro hc; exact absurd hc (by simp)
              · rintro ⟨-, -, -, -, -, hall⟩
                exact absurd (hall d1 d2 rfl rfl) hlt
  · intro loc ci co adults browse e hv
    unfold Agoda.agoda_scraper
    rw [hv]
  · intro loc ci co adults browse hv
    unfold Agoda.agoda_scraper
    rw [hv]

/-- witness for the amended C3 theorem: a fully valid query passes
validation and reaches the browser interaction. -/
theorem C3_input_validation_amended_witness :
    Agoda.agoda_validate (str ("Kuala Lumpur")) (str ("2025-06-07"))
      (str ("2025-06-08")) 1 = none ∧
    Agoda.agoda_scraper (str ("Kuala Lumpur")) (str ("2025-06-07"))
      (str ("2025-06-08")) 1 (fun _ => (7 : ℕ)) = .ok 7 :=
  ⟨by decide,
    C3_input_validation_amended.2.2 (str ("Kuala Lumpur")) (str ("2025-06-07"))
      (str ("2025-06-08")) 1 (fun _ => (7 : ℕ)) (by decide)⟩

/-- a possibly-absent Python string (`None` or a str). -/
abbrev PyStr := Option Str

/-- substring test (Python `in` on strings). -/
def containsSub (p : Str) : Str → Bool
  | [] => p.isEmpty
  | x :: t => p.isPrefixOf (x :: t) ∨ containsSub p t

namespace Agoda

/-- one `<span>` element of a hotel card as the rating loop sees it:
`text_content()` (possibly None) and `inner_text()`. -/
structure Span where
  textContent : PyStr
  innerText : Str
deriving DecidableEq, Repr

/-- one result-item element handle, pre-queried per selector list of
`extract_hotel_info`: for each candidate selector, `none` means the
selector matched no element; for attribute lists the inner option is the
attribute value (None possible). -/
structure AgodaItem where
  nameCands : List (Option PyStr)
  ratingSpans : List Span
  priceCands : List (Option Str)
  urlCands : List (Option PyStr)
  imageCands : List (Option PyStr)
deriving DecidableEq, Repr

/-- the hotel-name selector loop: each found element overwrites the
accumulator with its text (possibly None); a non-empty text whose strip is
non-empty breaks the loop with the stripped name. -/
def namePick : PyStr → List (Option PyStr) → PyStr
  | acc, [] => acc
  | acc, none :: rest => namePick acc rest
  | _, some (some t) :: rest =>
    if t ≠ [] ∧ trimWs t ≠ [] then some (trimWs t) else namePick (some t) rest
  | _, some none :: rest => namePick none rest

/-- the price selector loop: each found element overwrites the
accumulator with its inner text; a non-empty text other than "N/A" whose
strip is non-empty breaks the loop. -/
def pricePick : Str → List (Option Str) → Str
  | acc, [] => acc
  | acc, none :: rest => pricePick acc rest
  | _, some t :: rest =>
    if t ≠ [] ∧ t ≠ str ("N/A") ∧ trimWs t ≠ [] then t else pricePick t rest

/-- the attribute selector loops (booking URL / image): each found
element overwrites the accumulator with its attribute value (possibly
None); a truthy value breaks the loop. -/
def attrPick : PyStr → List (Option PyStr) → PyStr
  | acc, [] => acc
  | acc, none :: rest => attrPick acc rest
  | _, some (some t) :: rest => if t ≠ [] then some t else attrPick (some t) rest
  | _, some none :: rest => attrPick none rest

/-- the rating loop: the inner text of the first span whose text content
contains "stars out of 5"; then `split(" ")[0]` unless the text is
"N/A". -/
def ratingOf (spans : List Span) : Str :=
  match spans.find? (fun sp =>
    match sp.textContent with
    | some t => t ≠ [] ∧ containsSub (str ("stars out of 5")) t
    | none => false) with
  | none => str ("N/A")
  | some sp =>
    if sp.innerText = str ("N/A") then str ("N/A")
    else (splitChar ' ' sp.innerText).headD []

/-- price cleaning of `extract_hotel_info`: keep digits and points, then
`float(...)`; any failure (empty cleaned text or unparsable float, whose
`ValueError` is caught) leaves the price absent. -/
def priceOf (pt : Str) : Option Dec :=
  if pt ≠ str ("N/A") ∧ pt ≠ [] then
    let cleaned := pt.filter (fun c => isDig c ∨ c = '.')
    if cleaned ≠ [] then pyFloat cleaned else none
  else none

/-- a record returned by `extract_hotel_info`; the price is always a
parsed float by the time a record is returned. -/
structure AgodaHotel where
  hotel_name : Str
  hotel_price : Dec
  hotel_rating : Str
  booking_url : Str
  image_url : Str
deriving DecidableEq, Repr

/-- `extract_hotel_info`: name gate, rating, price gate (a record without
a parsed price is dropped), then URL fields.  A `None` attribute value
reaching `.startswith` raises `AttributeError`, caught by the outer
`except`, which also returns `None`. -/
def extract_hotel_info (it : AgodaItem) : Option AgodaHotel :=
  match namePick (some (str ("N/A"))) it.nameCands with
  | none => none
  | some nm =>
    if nm = str ("N/A") ∨ nm = [] then none
    else
      let rating := ratingOf it.ratingSpans
      match priceOf (pricePick (str ("N/A")) it.priceCands) with
      | none => none
      | some price =>
        match attrPick (some (str ("N/A"))) it.urlCands with
        | none => none
        | some bu =>
          match attrPick (some (str ("N/A"))) it.imageCands with
          | none => none
          | some iu =>
            some (AgodaHotel.mk nm price rating
              (if bu ≠ str ("N/A") ∧ ¬ (str ("http")).isPrefixOf bu then
                str ("https://www.agoda.com") ++ bu
              else bu)
              (if iu ≠ str ("N/A") ∧ (str ("//")).isPrefixOf iu then
                str ("https:") ++ iu
              else iu))

/-- the extraction loop of `scrape_first_page_results`: items whose
`extract_hotel_info` is None are skipped. -/
def scrape_items (items : List AgodaItem) : List AgodaHotel :=
  items.filterMap extract_hotel_info

end Agoda

example : Agoda.extract_hotel_info
    ⟨[some (some (str ("Hotel X")))], [⟨some (str ("4.5 stars out of 5")), str ("4.5 stars out of 5")⟩],
      [some (str ("$1,234.50"))], [some (some (str ("/hotel/x.html")))],
      [some (some (str ("//cdn.agoda.net/img.png")))]⟩ =
    some ⟨str ("Hotel X"), ⟨123450, 2⟩, str ("4.5"),
      str ("https://www.agoda.com/hotel/x.html"),
      str ("https://cdn.agoda.net/img.png")⟩ := by decide

example : Agoda.extract_hotel_info
    ⟨[some (some (str ("Hotel X")))], [], [some (str ("N/A"))], [], []⟩ =
    none := by decide

/-- outcome of one HTTP GET issued through the aiohttp session: a raised
exception, or a response with a status and body. -/
inductive Fetch where
  | exn
  | resp (status : ℕ) (body : Str)

/-- the network as a function from URL to fetch outcome. -/
abbrev World := Str → Fetch

/-- split at the first occurrence of a character (Python
`str.split(c, 1)` when it succeeds). -/
def breakChar (c : Char) : Str → Option (Str × Str)
  | [] => none
  | x :: t =>
    if x = c then some ([], t)
    else (breakChar c t).map (fun p => (x :: p.1, p.2))

/-- remove every occurrence of a non-empty pattern (Python
`str.replace(pat, '')`), scanning left to right; fuel-based so that it
reduces. -/
def removeSubAux (p : Str) : ℕ → Str → Str
  | 0, l => l
  | _ + 1, [] => []
  | fuel + 1, x :: t =>
    match stripPre p (x :: t) with
    | some r => removeSubAux p fuel r
    | none => x :: removeSubAux p fuel t

def removeSub (p l : Str) : Str := removeSubAux p l.length l

namespace Booking

def base_url : Str := str ("https://www.booking.com")

/-- `urllib.parse.urljoin(base_url, u)` restricted to the reference
shapes the scraper produces: absolute http(s) URLs pass through,
scheme-relative references take the base's scheme (https), root-relative
paths attach to the base origin, the empty string yields the base, and
other relative references resolve against the base's root since
`base_url` has an empty path.  (Dot-segments and query-only or
fragment-only references are outside the modelled subset.) -/
def urljoinBase (base u : Str) : Str :=
  if (str ("http://")).isPrefixOf u ∨ (str ("https://")).isPrefixOf u then u
  else if (str ("//")).isPrefixOf u then str ("https:") ++ u
  else if u = [] then base
  else if (str ("/")).isPrefixOf u then base ++ u
  else base ++ str ("/") ++ u

def bookingUrljoin (u : Str) : Str := urljoinBase base_url u

/-- `urlparse(u).path` for http(s) and protocol-relative URLs (general
exotic schemes are outside the modelled subset). -/
def pathOf (u : Str) : Str :=
  let core := u.takeWhile (fun c => c ≠ '?' ∧ c ≠ '#')
  if (str ("http://")).isPrefixOf core then (core.drop 7).dropWhile (· ≠ '/')
  else if (str ("https://")).isPrefixOf core then (core.drop 8).dropWhile (· ≠ '/')
  else if (str ("//")).isPrefixOf core then (core.drop 2).dropWhile (· ≠ '/')
  else core

/-- `urlparse(u).hostname`: the lowercased host of the authority
component, without userinfo and port; `None` when the URL has no
authority. -/
def hostOf (u : Str) : PyStr :=
  let core := u.takeWhile (fun c => c ≠ '?' ∧ c ≠ '#')
  let netloc : PyStr :=
    if (str ("http://")).isPrefixOf core then
      some ((core.drop 7).takeWhile (· ≠ '/'))
    else if (str ("https://")).isPrefixOf core then
      some ((core.drop 8).takeWhile (· ≠ '/'))
    else if (str ("//")).isPrefixOf core then
      some ((core.drop 2).takeWhile (· ≠ '/'))
    else none
  match netloc with
  | none => none
  | some n =>
    if n = [] then none
    else
      let afterUser := (splitChar '@' n).getLastD n
      some ((afterUser.takeWhile (· ≠ ':')).map Char.toLower)

/-- `urlparse(u).query`. -/
def queryOf (u : Str) : Str :=
  ((u.takeWhile (· ≠ '#')).dropWhile (· ≠ '?')).drop 1

/-- `urllib.parse.parse_qs`: key/value pairs split on `&` then on the
first `=`; pairs with a blank value are dropped (percent-decoding is
outside the modelled subset). -/
def parseQS (q : Str) : List (Str × Str) :=
  (splitChar '&' q).filterMap (fun kv =>
    match breakChar '=' kv with
    | some (k, v) => if v = [] then none else some (k, v)
    | none => none)

/-- Python `str.isdigit` (ASCII digits). -/
def pyIsDigit (part : Str) : Bool := part ≠ [] ∧ part.all (isDig ·)

/-- `ModernBookingScraper.extract_hotel_id`: scan the path parts, then
the known query parameters, then the hostname parts.  When the URL has
no authority (`hostname` is `None`) and the earlier branches found
nothing, `parsed.hostname.split('.')` raises `AttributeError`, modelled
as `Except.error`. -/
def extract_hotel_id (url : Str) : Except Unit (Option Str) :=
  if url = [] then .ok none
  else
    let path_parts := splitChar '/' (pathOf url)
    match path_parts.find? (fun part =>
        (str ("hotel")).isPrefixOf part ∨ (str ("ac-")).isPrefixOf part ∨
          pyIsDigit part) with
    | some part => .ok (some part)
    | none =>
      let qp := parseQS (queryOf url)
      match [str ("hotel_id"), str ("aid"), str ("id")].findSome?
          (fun param => (qp.find? (fun kv => kv.1 = param)).map (·.2)) with
      | some v => .ok (some v)
      | none =>
        match hostOf url with
        | none => .error ()
        | some host =>
          match (splitChar '.' host).find? (fun part =>
              (str ("hotel")).isPrefixOf part ∧ 5 < part.length) with
          | some part => .ok (some part)
          | none => .ok none

/-- `re.findall(r'data-atlas-latlng="([^"]+)"', html)` first match. -/
def firstAtlas : Str → PyStr
  | [] => none
  | x :: t =>
    match stripPre (str ("data-atlas-latlng=\x22")) (x :: t) with
    | some r =>
      let v := r.takeWhile (· ≠ '\x22')
      if v = [] then firstAtlas t else some v
    | none => firstAtlas t

/-- `get_hotel_coordinates`: the raw attribute string from the detail
page, `None` on any exception (all are caught) or non-200 status. -/
def get_hotel_coordinates (w : World) (url : Str) : PyStr :=
  match w url with
  | .exn => none
  | .resp st html => if st ≠ 200 then none else firstAtlas html

end Booking

example : Booking.extract_hotel_id (str ("https://www.booking.com/hotel/us/x.html")) =
    .ok (some (str ("hotel"))) := by decide
example : Booking.extract_hotel_id (str ("")) = .ok none := by decide
example : Booking.extract_hotel_id (str ("weird")) = .error () := by decide
example : Booking.extract_hotel_id (str ("https://site.com/p?aid=42")) =
    .ok (some (str ("42"))) := by decide
example : Booking.firstAtlas
    (str ("<div data-atlas-latlng=\x220,180\x22></div>")) =
    some (str ("0,180")) := by decide
example : removeSub (str (".html")) (str ("abc.html")) = str ("abc") := by decide

namespace Booking

/-- a parsed review record; its internal structure is produced by
external parsel CSS parsing and is opaque to every claim, so it is
modelled as an abstract payload. -/
abbrev Review := Str

/-- the parsel-based review parsing of `extract_reviews` (`eRev`),
`parse_reviews_from_main_page` (`pMain`) and the
`a[data-testid="reviews-link"]` href lookup (`revLink`), as oracles over
the page body. -/
structure ReviewOracles where
  eRev : Str → List Review
  pMain : Str → List Review
  revLink : Str → PyStr

/-- `path_parts[2] if len(path_parts) > 2 else None` on the hotel URL's
path. -/
def revCC (hotel_url : Str) : PyStr := (splitChar '/' (pathOf hotel_url)).get? 2

/-- the hotel identifier: last path part with `.html` removed when it
ends with `.html`, else `None`. -/
def revHID (hotel_url : Str) : PyStr :=
  let lastP := (splitChar '/' (pathOf hotel_url)).getLastD []
  if (str (".html")).isSuffixOf lastP then some (removeSub (str (".html")) lastP)
  else none

def constructedReviewsUrl (c h2 : Str) : Str :=
  base_url ++ str ("/reviews/") ++ c ++ str ("/hotel/") ++ h2 ++ str (".html")

def alternateReviewsUrl (c h2 : Str) : Str :=
  base_url ++ str ("/reviewlist.html?cc1=") ++ c ++ str (";pagename=") ++ h2

/-- the reviews-page URL: the on-page reviews link when present (joined
against the hotel URL), else the constructed standard format. -/
def reviewsUrlOf (o : ReviewOracles) (html hotel_url c h2 : Str) : Str :=
  match o.revLink html with
  | some l => if l = [] then constructedReviewsUrl c h2 else urljoinBase hotel_url l
  | none => constructedReviewsUrl c h2

/-- `extract_reviews` then the `parse_reviews_from_main_page` fallback,
then the `[:limit]` truncation. -/
def reviewsFrom (o : ReviewOracles) (body : Str) (limit : ℕ) : List Review :=
  let rs := o.eRev body
  (if rs = [] then o.pMain body else rs).take limit

/-- `get_hotel_reviews`: any raised exception inside the `try` block
(including a failing GET) yields `[]`; non-200 statuses fall back to the
alternate URL and then to `[]`. -/
def get_hotel_reviews (o : ReviewOracles) (w : World) (hotel_url : Str)
    (limit : ℕ) : List Review :=
  match w hotel_url with
  | .exn => []
  | .resp st html =>
    if st ≠ 200 then []
    else
      match revCC hotel_url, revHID hotel_url with
      | some c, some h2 =>
        if c = [] ∨ h2 = [] then []
        else
          match w (reviewsUrlOf o html hotel_url c h2) with
          | .exn => []
          | .resp st2 hb =>
            if st2 ≠ 200 then
              match w (alternateReviewsUrl c h2) with
              | .exn => []
              | .resp st3 h3 => if st3 ≠ 200 then [] else reviewsFrom o h3 limit
            else reviewsFrom o hb limit
      | some _, none => []
      | none, _ => []

/-- every URL `get_hotel_reviews` may GET during its run under world
`w`, in fetch order. -/
def reviewsTouched (o : ReviewOracles) (w : World) (hotel_url : Str) :
    List Str :=
  hotel_url ::
    match w hotel_url with
    | .exn => []
    | .resp st html =>
      if st ≠ 200 then []
      else
        match revCC hotel_url, revHID hotel_url with
        | some c, some h2 =>
          if c = [] ∨ h2 = [] then []
          else
            reviewsUrlOf o html hotel_url c h2 ::
              match w (reviewsUrlOf o html hotel_url c h2) with
              | .exn => []
              | .resp st2 _ => if st2 ≠ 200 then [alternateReviewsUrl c h2] else []
        | some _, none => []
        | none, _ => []

/-- two worlds that agree on every URL a reviews run may touch produce
the same reviews. -/
theorem get_hotel_reviews_congr (o : ReviewOracles) (w w2 : World)
    (hotel_url : Str) (limit : ℕ)
    (hagree : ∀ u ∈ reviewsTouched o w hotel_url, w u = w2 u) :
    get_hotel_reviews o w hotel_url limit =
      get_hotel_reviews o w2 hotel_url limit := by
  have h0 : w hotel_url = w2 hotel_url :=
    hagree hotel_url (by unfold reviewsTouched; simp)
  unfold get_hotel_reviews
  rw [← h0]
  cases hw : w hotel_url with
  | exn => rfl
  | resp st html =>
    by_cases hst : st ≠ 200
    · simp [hst]
    · simp only [hst, if_false]
      cases hcc : revCC hotel_url with
      | none => rfl
      | some c =>
        cases hhid : revHID hotel_url with
        | none => rfl
        | some h2 =>
          simp only
          by_cases hblank : c = [] ∨ h2 = []
          · rw [if_pos hblank, if_pos hblank]
          · rw [if_neg hblank, if_neg hblank]
            have hr : w (reviewsUrlOf o html hotel_url c h2) =
                w2 (reviewsUrlOf o html hotel_url c h2) := by
              apply hagree
              unfold reviewsTouched
              rw [hw]
              simp only [hst, if_false, hcc, hhid]
              rw [if_neg hblank]
              simp
            rw [← hr]
            cases hw2 : w (reviewsUrlOf o html hotel_url c h2) with
            | exn => rfl
            | resp st2 hb =>
              by_cases hst2 : st2 ≠ 200
              · simp only [if_pos hst2]
                have ha : w (alternateReviewsUrl c h2) =
                    w2 (alternateReviewsUrl c h2) := by
                  apply hagree
                  unfold reviewsTouched
                  rw [hw]
                  simp only [hst, if_false, hcc, hhid]
                  rw [if_neg hblank]
                  rw [hw2]
                  simp [hst2]
                rw [← ha]
              · simp [hst2]

end Booking

namespace Booking

/-- one entry of the JSON extracted by the XPath schema (a dict that may
lack any field). -/
structure RawHotel where
  name : Option Str
  price : Option Str
  rating : Option Str
  location : Option Str
  distance : Option Str
  url : Option Str
  availability_message : Option Str
  stars : Option Str
  coordinates : Option Str
deriving DecidableEq, Repr

/-- the `cleaned_hotel` dict built by `process_hotel` (the
`distance_from_center` key is added only later, by the distance pass). -/
structure CleanedHotel where
  id : Option Str
  name : Option Str
  price : Option Str
  rating : Rating
  stars : Option ℕ
  location : Option Str
  url : Str
  availability : Option Str
  coordinates : Option Coord
  reviews : Option (List Review)
deriving DecidableEq, Repr

def defaultRaw : RawHotel := ⟨none, none, none, none, none, none, none, none, none⟩

def defaultHotel : CleanedHotel :=
  ⟨none, none, none, ⟨none, none⟩, none, none, [], none, none, none⟩

/-- the full URL both enrichment fetches of one item use. -/
def itemURL (h : RawHotel) : Str := bookingUrljoin (h.url.getD [])

/-- `process_hotel`: fetch and validate detail-page coordinates, build
the cleaned record (the `extract_hotel_id` and `clean_rating` calls can
raise, making the coroutine's result an exception), and fetch reviews when
requested; `reviews := none` models the key being absent when
`include_reviews` is false. -/
def process_hotel (o : ReviewOracles) (w : World) (incRev : Bool) (limit : ℕ)
    (h : RawHotel) : Except Unit CleanedHotel :=
  let url := h.url.getD []
  let coords :=
    if url ≠ [] then
      match get_hotel_coordinates w (bookingUrljoin url) with
      | some rc => if rc = [] then none else extract_coordinates rc
      | none => none
    else none
  match extract_hotel_id url with
  | .error e => .error e
  | .ok hid =>
    match clean_rating (h.rating.getD []) with
    | .error e => .error e
    | .ok rat =>
      .ok (CleanedHotel.mk hid h.name h.price rat
        (extract_star_count (h.stars.getD [])) h.location (bookingUrljoin url)
        (match h.availability_message with
          | some s => if s = [] then none else some s
          | none => none)
        coords
        (if incRev then some (get_hotel_reviews o w (bookingUrljoin url) limit)
          else none))

/-- `asyncio.gather(..., return_exceptions=True)` followed by the
isinstance filter: results in input order, with the coroutines that
raised removed. -/
def exceptToOption {ε α : Type} : Except ε α → Option α
  | .ok a => some a
  | .error _ => none

def processBatch (o : ReviewOracles) (w : World) (incRev : Bool) (limit : ℕ)
    (raws : List RawHotel) : List CleanedHotel :=
  (raws.map (process_hotel o w incRev limit)).filterMap exceptToOption

/-- center coordinates: the first record with valid coordinates. -/
def firstCoords (hs : List CleanedHotel) : Option Coord :=
  match hs.find? (fun h => h.coordinates.isSome) with
  | some h => h.coordinates
  | none => none

end Booking

namespace Booking

/-- `math.atan2`. -/
noncomputable def atan2 (y x : ℝ) : ℝ :=
  if 0 < x then Real.arctan (y / x)
  else if x < 0 ∧ 0 ≤ y then Real.arctan (y / x) + Real.pi
  else if x < 0 then Real.arctan (y / x) - Real.pi
  else if 0 < y then Real.pi / 2
  else if y < 0 then -(Real.pi / 2)
  else 0

/-- `math.radians`. -/
noncomputable def radians (q : ℚ) : ℝ := (q : ℝ) * Real.pi / 180

/-- Python `round(x, 2)` over the reals (float representation and the
banker's tie rule are outside the modelled subset; no value here sits on
a tie). -/
noncomputable def round2 (x : ℝ) : ℝ := ((round (100 * x) : ℤ) : ℝ) / 100

/-- `ModernBookingScraper.calculate_distance` on two present coordinate
pairs: the Haversine great-circle distance with Earth radius 6371 km,
rounded to 2 decimals. -/
noncomputable def calculate_distance (c1 c2 : Coord) : ℝ :=
  let lat1 := radians c1.latitude.toQ
  let lon1 := radians c1.longitude.toQ
  let lat2 := radians c2.latitude.toQ
  let lon2 := radians c2.longitude.toQ
  let dlat := lat2 - lat1
  let dlon := lon2 - lon1
  let a := Real.sin (dlat / 2) ^ 2 +
    Real.cos lat1 * Real.cos lat2 * Real.sin (dlon / 2) ^ 2
  let c := 2 * atan2 (Real.sqrt a) (Real.sqrt (1 - a))
  round2 (6371 * c)

/-- the distance pass at the end of `search_hotels`: when some record
has valid coordinates, the first such record's coordinates become the
center and every record with coordinates gains a
`distance_from_center` value; records without coordinates (and every
record when no center exists) keep the key absent. -/
noncomputable def addDistances (hs : List CleanedHotel) :
    List (CleanedHotel × Option ℝ) :=
  match firstCoords hs with
  | none => hs.map (fun h => (h, none))
  | some center =>
    hs.map (fun h =>
      match h.coordinates with
      | some c => (h, some (calculate_distance center c))
      | none => (h, none))

/-- the post-extraction part of `search_hotels`: per-item processing of
the raw schema output (concurrently, in input order), the
exception filter, then the distance pass; the list is returned in input
order. -/
noncomputable def search_post (o : ReviewOracles) (w : World) (incRev : Bool)
    (limit : ℕ) (raws : List RawHotel) : List (CleanedHotel × Option ℝ) :=
  addDistances (processBatch o w incRev limit raws)

theorem atan2_zero_one : atan2 0 1 = 0 := by
  unfold atan2
  rw [if_pos (by norm_num)]
  norm_num [Real.arctan_zero]

theorem atan2_one_zero : atan2 1 0 = Real.pi / 2 := by
  unfold atan2
  rw [if_neg (by norm_num), if_neg (by norm_num), if_neg (by norm_num),
    if_pos (by norm_num)]

theorem round2_zero : round2 0 = 0 := by
  unfold round2
  norm_num

/-- two identical coordinate pairs are at Haversine distance 0.00. -/
theorem calculate_distance_self (c : Coord) : calculate_distance c c = 0 := by
  unfold calculate_distance
  simp only [sub_self, zero_div, Real.sin_zero, ne_eq]
  rw [show (0 : ℝ) ^ 2 = 0 by norm_num]
  rw [show (0 : ℝ) + Real.cos (radians c.latitude.toQ) *
      Real.cos (radians c.latitude.toQ) * 0 = 0 by ring]
  rw [Real.sqrt_zero]
  rw [show (1 : ℝ) - 0 = 1 by norm_num]
  rw [Real.sqrt_one, atan2_zero_one]
  rw [show 6371 * (2 * (0 : ℝ)) = 0 by ring]
  exact round2_zero

end Booking

theorem getD_map {α β : Type} (f : α → β) (l : List α) (j : ℕ) (d : α) :
    (l.map f).getD j (f d) = f (l.getD j d) := by
  induction l generalizing j with
  | nil => simp
  | cons x xs ih =>
    cases j with
    | zero => simp
    | succ k => simp [ih k]

theorem firstCoords_spec (hs : List Booking.CleanedHotel)
    (hex : ∃ h ∈ hs, h.coordinates.isSome) :
    ∃ ref i, i < hs.length ∧
      (hs.getD i Booking.defaultHotel).coordinates = some ref ∧
      (∀ j, j < i → (hs.getD j Booking.defaultHotel).coordinates = none) ∧
      Booking.firstCoords hs = some ref := by
  induction hs with
  | nil => simp at hex
  | cons h t ih =>
    cases hc : h.coordinates with
    | some c =>
      refine ⟨c, 0, by simp, by simp [hc], by omega, ?_⟩
      unfold Booking.firstCoords
      rw [List.find?_cons_of_pos _ (by simp [hc])]
      simpa using hc
    | none =>
      have hex2 : ∃ h2 ∈ t, h2.coordinates.isSome := by
        rcases hex with ⟨h2, hmem, hsome⟩
        rcases List.mem_cons.mp hmem with rfl | hmem2
        · rw [hc] at hsome; simp at hsome
        · exact ⟨h2, hmem2, hsome⟩
      obtain ⟨ref, i, hi, hgi, hall, hfc⟩ := ih hex2
      refine ⟨ref, i + 1, by simpa using hi, by simpa using hgi, ?_, ?_⟩
      · intro j hj
        cases j with
        | zero => simpa using hc
        | succ k => simpa using hall k (by omega)
      · unfold Booking.firstCoords
        rw [List.find?_cons_of_neg _ (by simp [hc])]
        unfold Booking.firstCoords at hfc
        exact hfc

/-- C8: when at least one record in the enriched batch has valid
coordinates, the first such record's coordinates are the reference
point; every record with coordinates gets the Haversine distance
(R = 6371 km, rounded to 2 decimals) to that reference, every record
without coordinates keeps its distance absent, order and length are
preserved, and a record whose coordinates equal the reference (the
reference record itself in particular) gets distance 0.00. -/
theorem C8_haversine_distance_pass (hs : List Booking.CleanedHotel)
    (hex : ∃ h ∈ hs, h.coordinates.isSome) :
    ∃ ref i, i < hs.length ∧
      (hs.getD i Booking.defaultHotel).coordinates = some ref ∧
      (∀ j, j < i → (hs.getD j Booking.defaultHotel).coordinates = none) ∧
      (Booking.addDistances hs).length = hs.length ∧
      (∀ j, (Booking.addDistances hs).getD j (Booking.defaultHotel, none) =
        ((hs.getD j Booking.defaultHotel),
          match (hs.getD j Booking.defaultHotel).coordinates with
          | some c => some (Booking.calculate_distance ref c)
          | none => none)) ∧
      Booking.calculate_distance ref ref = 0 := by
  obtain ⟨ref, i, hi, hgi, hall, hfc⟩ := firstCoords_spec hs hex
  refine ⟨ref, i, hi, hgi, hall, ?_, ?_, Booking.calculate_distance_self ref⟩
  · unfold Booking.addDistances
    rw [hfc]
    simp
  · intro j
    unfold Booking.addDistances
    rw [hfc]
    have hd : ((Booking.defaultHotel, none) :
        Booking.CleanedHotel × Option ℝ) =
        (fun h => match h.coordinates with
          | some c => (h, some (Booking.calculate_distance ref c))
          | none => (h, none)) Booking.defaultHotel := by
      simp [Booking.defaultHotel]
    rw [hd, getD_map]
    cases (hs.getD j Booking.defaultHotel).coordinates with
    | some c => simp
    | none => simp

/-- witness for C8 on a one-record batch carrying coordinates. -/
theorem C8_haversine_distance_pass_witness :
    (∃ h ∈ [Booking.CleanedHotel.mk none none none ⟨none, none⟩ none none []
        none (some ⟨⟨10, 0⟩, ⟨20, 0⟩⟩) none], h.coordinates.isSome) ∧
    ∃ ref i,
      i < [Booking.CleanedHotel.mk none none none ⟨none, none⟩ none none []
        none (some ⟨⟨10, 0⟩, ⟨20, 0⟩⟩) none].length ∧
      (([Booking.CleanedHotel.mk none none none ⟨none, none⟩ none none []
        none (some ⟨⟨10, 0⟩, ⟨20, 0⟩⟩) none].getD i
          Booking.defaultHotel).coordinates = some ref) ∧
      (∀ j, j < i → (([Booking.CleanedHotel.mk none none none ⟨none, none⟩
        none none [] none (some ⟨⟨10, 0⟩, ⟨20, 0⟩⟩) none].getD j
          Booking.defaultHotel).coordinates = none)) ∧
      (Booking.addDistances [Booking.CleanedHotel.mk none none none
        ⟨none, none⟩ none none [] none (some ⟨⟨10, 0⟩, ⟨20, 0⟩⟩) none]).length =
        [Booking.CleanedHotel.mk none none none ⟨none, none⟩ none none []
          none (some ⟨⟨10, 0⟩, ⟨20, 0⟩⟩) none].length ∧
      (∀ j, (Booking.addDistances [Booking.CleanedHotel.mk none none none
          ⟨none, none⟩ none none [] none (some ⟨⟨10, 0⟩, ⟨20, 0⟩⟩) none]).getD j
          (Booking.defaultHotel, none) =
        (([Booking.CleanedHotel.mk none none none ⟨none, none⟩ none none []
            none (some ⟨⟨10, 0⟩, ⟨20, 0⟩⟩) none].getD j
            Booking.defaultHotel),
          match ([Booking.CleanedHotel.mk none none none ⟨none, none⟩ none
              none [] none (some ⟨⟨10, 0⟩, ⟨20, 0⟩⟩) none].getD j
              Booking.defaultHotel).coordinates with
          | some c => some (Booking.calculate_distance ref c)
          | none => none)) ∧
      Booking.calculate_distance ref ref = 0 :=
  ⟨by decide,
    C8_haversine_distance_pass [Booking.CleanedHotel.mk none none none
      ⟨none, none⟩ none none [] none (some ⟨⟨10, 0⟩, ⟨20, 0⟩⟩) none]
      (by decide)⟩

/-- oracles for runs in which review parsing finds nothing. -/
def nullOracles : Booking.ReviewOracles := ⟨fun _ => [], fun _ => [], fun _ => none⟩

/-- a network where every GET raises. -/
def worldDown : World := fun _ => .exn

def c2raw : Booking.RawHotel :=
  ⟨some (str ("Hotel P")), none, none, none, none, some (str ("/hotel/p.html")),
    none, none, none⟩

/-- C2 counterexample: a Booking result item with no price text is NOT
dropped — `search_hotels` returns its record with `price = None`
(`process_hotel` copies `hotel.get("price")` raw, with no parsing and no
gate), refuting "every record in the list returned by a scraper run has a
non-absent price". -/
theorem C2_cex_booking_no_price_gate :
    Booking.search_post nullOracles worldDown false 5 [c2raw] =
      [(Booking.CleanedHotel.mk (some (str ("hotel"))) (some (str ("Hotel P")))
        none ⟨none, none⟩ none none
        (str ("https://www.booking.com/hotel/p.html")) none none none, none)] ∧
    (Booking.CleanedHotel.mk (some (str ("hotel"))) (some (str ("Hotel P")))
      none ⟨none, none⟩ none none
      (str ("https://www.booking.com/hotel/p.html")) none none none).price =
      none := by
  constructor
  · unfold Booking.search_post
    have h1 : Booking.processBatch nullOracles worldDown false 5 [c2raw] =
        [Booking.CleanedHotel.mk (some (str ("hotel"))) (some (str ("Hotel P")))
          none ⟨none, none⟩ none none
          (str ("https://www.booking.com/hotel/p.html")) none none none] := by
      decide
    rw [h1]
    unfold Booking.addDistances Booking.firstCoords
    simp
  · rfl

/-- C2 amended: the price-presence gate holds only on the Agoda
extraction path: `extract_hotel_info` returns a record exactly with the
parsed float of its picked price text, returns None (so the item is
dropped) whenever that text is missing or unparsable, and every record
returned by the scrape loop comes from such a successful extraction.
(The Booking scraper has no such gate; see the counterexample.) -/
theorem C2_price_gate_amended :
    (∀ it r, Agoda.extract_hotel_info it = some r →
      Agoda.priceOf (Agoda.pricePick (str ("N/A")) it.priceCands) =
        some r.hotel_price) ∧
    (∀ it, Agoda.priceOf (Agoda.pricePick (str ("N/A")) it.priceCands) = none →
      Agoda.extract_hotel_info it = none) ∧
    (∀ items r, r ∈ Agoda.scrape_items items →
      ∃ it, it ∈ items ∧ Agoda.extract_hotel_info it = some r) := by
  refine ⟨?_, ?_, ?_⟩
  · intro it r h
    unfold Agoda.extract_hotel_info at h
    cases hn : Agoda.namePick (some (str ("N/A"))) it.nameCands with
    | none => rw [hn] at h; exact absurd h (by simp)
    | some nm =>
      rw [hn] at h
      simp only at h
      by_cases hgate : nm = str ("N/A") ∨ nm = []
      · rw [if_pos hgate] at h; exact absurd h (by simp)
      · rw [if_neg hgate] at h
        cases hp : Agoda.priceOf (Agoda.pricePick (str ("N/A")) it.priceCands) with
        | none => rw [hp] at h; exact absurd h (by simp)
        | some price =>
          rw [hp] at h
          cases hu : Agoda.attrPick (some (str ("N/A"))) it.urlCands with
          | none => rw [hu] at h; exact absurd h (by simp)
          | some bu =>
            rw [hu] at h
            cases hi : Agoda.attrPick (some (str ("N/A"))) it.imageCands with
            | none => rw [hi] at h; exact absurd h (by simp)
            | some iu =>
              rw [hi] at h
              simp only at h
              obtain rfl := (Option.some.inj h).symm
              rfl
  · intro it hp
    unfold Agoda.extract_hotel_info
    cases hn : Agoda.namePick (some (str ("N/A"))) it.nameCands with
    | none => rfl
    | some nm =>
      simp only
      by_cases hgate : nm = str ("N/A") ∨ nm = []
      · rw [if_pos hgate]
      · rw [if_neg hgate, hp]
  · intro items r h
    obtain ⟨it, hmem, hit⟩ := List.mem_filterMap.mp h
    exact ⟨it, hmem, hit⟩

/-- witness for the amended C2 theorem on a card with the price text
"$1,234.50" (parsed to 1234.50) and one without a usable price. -/
theorem C2_price_gate_amended_witness :
    (Agoda.extract_hotel_info
      ⟨[some (some (str ("Hotel X")))], [], [some (str ("$1,234.50"))],
        [some (some (str ("/hotel/x.html")))], [some (some (str ("x.png")))]⟩ =
      some ⟨str ("Hotel X"), ⟨123450, 2⟩, str ("N/A"),
        str ("https://www.agoda.com/hotel/x.html"), str ("x.png")⟩) ∧
    Agoda.priceOf (Agoda.pricePick (str ("N/A"))
      [some (str ("$1,234.50"))]) = some (⟨123450, 2⟩ : Dec) ∧
    Agoda.priceOf (Agoda.pricePick (str ("N/A")) [some (str ("N/A"))]) = none ∧
    Agoda.extract_hotel_info
      ⟨[some (some (str ("Hotel Y")))], [], [some (str ("N/A"))],
        [], []⟩ = none :=
  ⟨by decide,
    C2_price_gate_amended.1
      ⟨[some (some (str ("Hotel X")))], [], [some (str ("$1,234.50"))],
        [some (some (str ("/hotel/x.html")))], [some (some (str ("x.png")))]⟩
      ⟨str ("Hotel X"), ⟨123450, 2⟩, str ("N/A"),
        str ("https://www.agoda.com/hotel/x.html"), str ("x.png")⟩ (by decide),
    by decide,
    C2_price_gate_amended.2.1
      ⟨[some (some (str ("Hotel Y")))], [], [some (str ("N/A"))], [], []⟩
      (by decide)⟩

def c7itemRootImage : Agoda.AgodaItem :=
  ⟨[some (some (str ("Hotel X")))], [], [some (str ("100"))],
    [some (some (str ("/hotel/x")))], [some (some (str ("/img.png")))]⟩

/-- C7 counterexample: on the Agoda side a root-relative image URL
passes through UNCHANGED (it is not resolved against the base), and a
scheme-relative booking URL gets the whole base origin prepended instead
of just "https:". -/
theorem C7_cex_agoda_url_fields :
    (∃ r, Agoda.extract_hotel_info c7itemRootImage = some r ∧
      r.image_url = str ("/img.png")) ∧
    str ("/img.png") ≠ str ("https://www.agoda.com") ++ str ("/img.png")  ∧
    (∃ r, Agoda.extract_hotel_info
        ⟨[some (some (str ("Hotel X")))], [], [some (str ("100"))],
          [some (some (str ("//cdn.example.com/h")))],
          [some (some (str ("x.png")))]⟩ = some r ∧
      r.booking_url = str ("https://www.agoda.com") ++ str ("//cdn.example.com/h") ∧
      r.booking_url ≠ str ("https:") ++ str ("//cdn.example.com/h")) := by
  refine ⟨⟨Agoda.AgodaHotel.mk (str ("Hotel X")) ⟨100, 0⟩ (str ("N/A"))
      (str ("https://www.agoda.com/hotel/x")) (str ("/img.png")), by decide,
      by decide⟩,
    by decide,
    ⟨Agoda.AgodaHotel.mk (str ("Hotel X")) ⟨100, 0⟩ (str ("N/A"))
      (str ("https://www.agoda.com//cdn.example.com/h")) (str ("x.png")),
      by decide, by decide, by decide⟩⟩

theorem isPrefixOf_shape {u : Str} (p : Str) (h : p.isPrefixOf u = true) :
    ∃ t, u = p ++ t := by
  obtain ⟨t, ht⟩ := List.isPrefixOf_iff_prefix.mp h
  exact ⟨t, ht.symm⟩

/-- C7 amended: the Booking scraper resolves its raw URLs with `urljoin`
against the base, which does behave as claimed (scheme-relative gets
"https:", root-relative attaches to the base origin, absolute passes
through).  The Agoda scraper instead prepends its base origin to EVERY
booking URL that does not start with "http" (including scheme-relative
ones), and prefixes "https:" only to scheme-relative image URLs, letting
root-relative image URLs pass through unchanged. -/
theorem C7_url_normalization_amended :
    (∀ u, (str ("//")).isPrefixOf u = true →
      Booking.bookingUrljoin u = str ("https:") ++ u) ∧
    (∀ u, (str ("/")).isPrefixOf u = true → (str ("//")).isPrefixOf u = false →
      Booking.bookingUrljoin u = Booking.base_url ++ u) ∧
    (∀ u, (str ("http://")).isPrefixOf u = true ∨
        (str ("https://")).isPrefixOf u = true →
      Booking.bookingUrljoin u = u) ∧
    (∀ it r bu, Agoda.extract_hotel_info it = some r →
      Agoda.attrPick (some (str ("N/A"))) it.urlCands = some bu →
      bu ≠ str ("N/A") → (str ("http")).isPrefixOf bu = false →
      r.booking_url = str ("https://www.agoda.com") ++ bu) ∧
    (∀ it r iu, Agoda.extract_hotel_info it = some r →
      Agoda.attrPick (some (str ("N/A"))) it.imageCands = some iu →
      (str ("//")).isPrefixOf iu = false →
      r.image_url = iu) := by
  refine ⟨?_, ?_, ?_, ?_, ?_⟩
  · intro u hp
    obtain ⟨t, rfl⟩ := isPrefixOf_shape (str ("//")) hp
    unfold Booking.bookingUrljoin Booking.urljoinBase
    rw [if_neg (by simp [str, List.isPrefixOf])]
    rw [if_pos (by simp [str, List.isPrefixOf])]
  · intro u hp hnp
    obtain ⟨t, rfl⟩ := isPrefixOf_shape (str ("/")) hp
    unfold Booking.bookingUrljoin Booking.urljoinBase
    rw [if_neg (by simp [str, List.isPrefixOf])]
    rw [if_neg (by simp [hnp])]
    rw [if_neg (by simp [str])]
    rw [if_pos (by simp [str, List.isPrefixOf])]
  · intro u hp
    unfold Booking.bookingUrljoin Booking.urljoinBase
    rw [if_pos (by
      rcases hp with h1 | h1
      · exact Or.inl h1
      · exact Or.inr h1)]
  · intro it r bu h hpick hna hhttp
    unfold Agoda.extract_hotel_info at h
    cases hn : Agoda.namePick (some (str ("N/A"))) it.nameCands with
    | none => rw [hn] at h; exact absurd h (by simp)
    | some nm =>
      rw [hn] at h
      simp only at h
      by_cases hgate : nm = str ("N/A") ∨ nm = []
      · rw [if_pos hgate] at h; exact absurd h (by simp)
      · rw [if_neg hgate] at h
        cases hpr : Agoda.priceOf (Agoda.pricePick (str ("N/A")) it.priceCands) with
        | none => rw [hpr] at h; exact absurd h (by simp)
        | some price =>
          rw [hpr] at h
          rw [hpick] at h
          cases hi : Agoda.attrPick (some (str ("N/A"))) it.imageCands with
          | none => rw [hi] at h; exact absurd h (by simp)
          | some iu =>
            rw [hi] at h
            simp only at h
            obtain rfl := (Option.some.inj h).symm
            simp only
            rw [if_pos ⟨hna, by simp [hhttp]⟩]
  · intro it r iu h hpick hss
    unfold Agoda.extract_hotel_info at h
    cases hn : Agoda.namePick (some (str ("N/A"))) it.nameCands with
    | none => rw [hn] at h; exact absurd h (by simp)
    | some nm =>
      rw [hn] at h
      simp only at h
      by_cases hgate : nm = str ("N/A") ∨ nm = []
      · rw [if_pos hgate] at h; exact absurd h (by simp)
      · rw [if_neg hgate] at h
        cases hpr : Agoda.priceOf (Agoda.pricePick (str ("N/A")) it.priceCands) with
        | none => rw [hpr] at h; exact absurd h (by simp)
        | some price =>
          rw [hpr] at h
          cases hu : Agoda.attrPick (some (str ("N/A"))) it.urlCands with
          | none => rw [hu] at h; exact absurd h (by simp)
          | some bu =>
            rw [hu] at h
            rw [hpick] at h
            simp only at h
            obtain rfl := (Option.some.inj h).symm
            simp only
            rw [if_neg (by
              rintro ⟨-, hc⟩
              rw [hss] at hc
              exact absurd hc (by simp))]

/-- witness for the amended C7 theorem on representative URLs. -/
theorem C7_url_normalization_amended_witness :
    ((str ("//")).isPrefixOf (str ("//x.com/a")) = true ∧
      Booking.bookingUrljoin (str ("//x.com/a")) =
        str ("https:") ++ str ("//x.com/a")) ∧
    ((str ("/")).isPrefixOf (str ("/p")) = true ∧
      (str ("//")).isPrefixOf (str ("/p")) = false ∧
      Booking.bookingUrljoin (str ("/p")) = Booking.base_url ++ str ("/p")) ∧
    Booking.bookingUrljoin (str ("https://a.b/c")) = str ("https://a.b/c") :=
  ⟨⟨by decide, C7_url_normalization_amended.1 (str ("//x.com/a")) (by decide)⟩,
    ⟨by decide, by decide,
      C7_url_normalization_amended.2.1 (str ("/p")) (by decide) (by decide)⟩,
    C7_url_normalization_amended.2.2.1 (str ("https://a.b/c"))
      (Or.inr (by decide))⟩

/-- the world in which the GET of the one URL `u` raises and every other
fetch is unchanged. -/
def failAt (w : World) (u v : Str) : Fetch :=
  if v = u then .exn else w v

namespace Booking

def exceptOk {ε α : Type} : Except ε α → Bool
  | .ok _ => true
  | .error _ => false

/-- world-independent success of one item's coroutine: neither
`extract_hotel_id` nor `clean_rating` raises on this item. -/
def itemOk (h : RawHotel) : Bool :=
  exceptOk (extract_hotel_id (h.url.getD [])) &&
    exceptOk (clean_rating (h.rating.getD []))

/-- the cleaned record of a successful `process_hotel` run. -/
def process_hotel_val (o : ReviewOracles) (w : World) (incRev : Bool)
    (limit : ℕ) (h : RawHotel) : CleanedHotel :=
  (exceptToOption (process_hotel o w incRev limit h)).getD defaultHotel

/-- `process_hotel` with its let-bindings inlined. -/
theorem process_hotel_eqn (o : ReviewOracles) (w : World) (incRev : Bool)
    (limit : ℕ) (h : RawHotel) :
    process_hotel o w incRev limit h =
      match extract_hotel_id (h.url.getD []) with
      | .error e => .error e
      | .ok hid =>
        match clean_rating (h.rating.getD []) with
        | .error e => .error e
        | .ok rat =>
          .ok (CleanedHotel.mk hid h.name h.price rat
            (extract_star_count (h.stars.getD [])) h.location
            (bookingUrljoin (h.url.getD []))
            (match h.availability_message with
              | some s => if s = [] then none else some s
              | none => none)
            (if h.url.getD [] ≠ [] then
              match get_hotel_coordinates w (bookingUrljoin (h.url.getD [])) with
              | some rc => if rc = [] then none else extract_coordinates rc
              | none => none
             else none)
            (if incRev then
              some (get_hotel_reviews o w (bookingUrljoin (h.url.getD [])) limit)
             else none)) := rfl

theorem itemOk_elim (h : RawHotel) (hok : itemOk h = true) :
    ∃ hid rat, extract_hotel_id (h.url.getD []) = .ok hid ∧
      clean_rating (h.rating.getD []) = .ok rat := by
  unfold itemOk at hok
  rw [Bool.and_eq_true] at hok
  obtain ⟨h1, h2⟩ := hok
  cases hext : extract_hotel_id (h.url.getD []) with
  | error e => rw [hext] at h1; exact absurd h1 (by simp [exceptOk])
  | ok hid =>
    cases hrat : clean_rating (h.rating.getD []) with
    | error e => rw [hrat] at h2; exact absurd h2 (by simp [exceptOk])
    | ok rat => exact ⟨hid, rat, rfl, rfl⟩

theorem process_hotel_of_ok (o : ReviewOracles) (w : World) (incRev : Bool)
    (limit : ℕ) (h : RawHotel) (hid : Option Str) (rat : Rating)
    (hext : extract_hotel_id (h.url.getD []) = .ok hid)
    (hrat : clean_rating (h.rating.getD []) = .ok rat) :
    process_hotel o w incRev limit h =
      .ok (CleanedHotel.mk hid h.name h.price rat
        (extract_star_count (h.stars.getD [])) h.location
        (bookingUrljoin (h.url.getD []))
        (match h.availability_message with
          | some s => if s = [] then none else some s
          | none => none)
        (if h.url.getD [] ≠ [] then
          match get_hotel_coordinates w (bookingUrljoin (h.url.getD [])) with
          | some rc => if rc = [] then none else extract_coordinates rc
          | none => none
         else none)
        (if incRev then
          some (get_hotel_reviews o w (bookingUrljoin (h.url.getD [])) limit)
         else none)) := by
  rw [process_hotel_eqn, hext, hrat]

theorem process_hotel_ok_val (o : ReviewOracles) (w : World) (incRev : Bool)
    (limit : ℕ) (h : RawHotel) (hok : itemOk h = true) :
    process_hotel o w incRev limit h =
      .ok (process_hotel_val o w incRev limit h) := by
  obtain ⟨hid, rat, hext, hrat⟩ := itemOk_elim h hok
  have hcall := process_hotel_of_ok o w incRev limit h hid rat hext hrat
  rw [hcall]
  unfold process_hotel_val
  rw [hcall]
  rfl

theorem process_hotel_error_of_not (o : ReviewOracles) (w : World)
    (incRev : Bool) (limit : ℕ) (h : RawHotel) (hbad : itemOk h = false) :
    process_hotel o w incRev limit h = .error () := by
  unfold itemOk at hbad
  rw [process_hotel_eqn]
  cases hext : extract_hotel_id (h.url.getD []) with
  | error e => rfl
  | ok hid =>
    rw [hext] at hbad
    cases hrat : clean_rating (h.rating.getD []) with
    | error e => rfl
    | ok rat => rw [hrat] at hbad; simp [exceptOk] at hbad

theorem processBatch_eq_filter (o : ReviewOracles) (w : World)
    (incRev : Bool) (limit : ℕ) (raws : List RawHotel) :
    processBatch o w incRev limit raws =
      (raws.filter itemOk).map (process_hotel_val o w incRev limit) := by
  induction raws with
  | nil => rfl
  | cons x xs ih =>
    unfold processBatch at ih ⊢
    simp only [List.map_cons, List.filterMap_cons, List.filter_cons]
    cases hok : itemOk x with
    | true =>
      rw [process_hotel_ok_val o w incRev limit x hok]
      simp only [exceptToOption]
      rw [ih]
      simp
    | false =>
      rw [process_hotel_error_of_not o w incRev limit x hok]
      simp only [exceptToOption]
      rw [ih]
      simp

theorem processBatch_of_ok (o : ReviewOracles) (w : World) (incRev : Bool)
    (limit : ℕ) (raws : List RawHotel)
    (hok : ∀ h ∈ raws, itemOk h = true) :
    processBatch o w incRev limit raws =
      raws.map (process_hotel_val o w incRev limit) := by
  rw [processBatch_eq_filter]
  rw [List.filter_eq_self.mpr hok]

theorem addDistances_length (hs : List CleanedHotel) :
    (addDistances hs).length = hs.length := by
  unfold addDistances
  cases firstCoords hs <;> simp

end Booking

theorem getD_map_lt {α β : Type} (f : α → β) (l : List α) (j : ℕ) (d : β)
    (d2 : α) (hj : j < l.length) : (l.map f).getD j d = f (l.getD j d2) := by
  induction l generalizing j with
  | nil => simp at hj
  | cons x xs ih =>
    cases j with
    | zero => simp
    | succ k => simpa using ih k (by simpa using hj)

theorem getD_mem_of_lt {α : Type} (l : List α) (j : ℕ) (d : α)
    (hj : j < l.length) : l.getD j d ∈ l := by
  induction l generalizing j with
  | nil => simp at hj
  | cons x xs ih =>
    cases j with
    | zero => simp
    | succ k =>
      have : (x :: xs).getD (k + 1) d = xs.getD k d := rfl
      rw [this]
      exact List.mem_cons_of_mem x (ih k (by simpa using hj))

theorem getD_ge {α : Type} (l : List α) (j : ℕ) (d : α)
    (hj : l.length ≤ j) : l.getD j d = d := by
  induction l generalizing j with
  | nil => simp
  | cons x xs ih =>
    cases j with
    | zero => simp at hj
    | succ k =>
      have : (x :: xs).getD (k + 1) d = xs.getD k d := rfl
      rw [this]
      exact ih k (by simpa using hj)

theorem addDistances_getD_none (hs : List Booking.CleanedHotel) (j : ℕ)
    (hco : (hs.getD j Booking.defaultHotel).coordinates = none) :
    (Booking.addDistances hs).getD j (Booking.defaultHotel, none) =
      (hs.getD j Booking.defaultHotel, none) := by
  unfold Booking.addDistances
  cases hfc : Booking.firstCoords hs with
  | none =>
    have hd : ((Booking.defaultHotel, none) :
        Booking.CleanedHotel × Option ℝ) =
        (fun h => (h, none)) Booking.defaultHotel := rfl
    rw [hd, getD_map]
  | some center =>
    have hd : ((Booking.defaultHotel, none) :
        Booking.CleanedHotel × Option ℝ) =
        (fun h => match h.coordinates with
          | some c => (h, some (Booking.calculate_distance center c))
          | none => (h, none)) Booking.defaultHotel := by
      simp [Booking.defaultHotel]
    rw [hd, getD_map]
    show (match (hs.getD j Booking.defaultHotel).coordinates with
      | some c => (hs.getD j Booking.defaultHotel,
          some (Booking.calculate_distance center c))
      | none => (hs.getD j Booking.defaultHotel, none)) =
      (hs.getD j Booking.defaultHotel, none)
    rw [hco]

theorem process_hotel_val_failed (o : Booking.ReviewOracles) (w : World)
    (limit : ℕ) (h : Booking.RawHotel) (hok : Booking.itemOk h = true) :
    (Booking.process_hotel_val o (failAt w (Booking.itemURL h)) true limit
      h).coordinates = none ∧
    (Booking.process_hotel_val o (failAt w (Booking.itemURL h)) true limit
      h).reviews = some [] := by
  obtain ⟨hid, rat, hext, hrat⟩ := Booking.itemOk_elim h hok
  have hw : failAt w (Booking.itemURL h)
      (Booking.bookingUrljoin (h.url.getD [])) = .exn := by
    unfold failAt
    rw [if_pos (show Booking.bookingUrljoin (h.url.getD []) =
      Booking.itemURL h from rfl)]
  have hco : Booking.get_hotel_coordinates (failAt w (Booking.itemURL h))
      (Booking.bookingUrljoin (h.url.getD [])) = none := by
    unfold Booking.get_hotel_coordinates
    rw [hw]
  have hrev : Booking.get_hotel_reviews o (failAt w (Booking.itemURL h))
      (Booking.bookingUrljoin (h.url.getD [])) limit = [] := by
    unfold Booking.get_hotel_reviews
    rw [hw]
  have hcall := Booking.process_hotel_of_ok o (failAt w (Booking.itemURL h))
    true limit h hid rat hext hrat
  unfold Booking.process_hotel_val
  rw [hcall]
  simp only [Booking.exceptToOption, Option.getD_some]
  refine ⟨?_, ?_⟩
  · show (if h.url.getD [] ≠ [] then
        match Booking.get_hotel_coordinates (failAt w (Booking.itemURL h))
          (Booking.bookingUrljoin (h.url.getD [])) with
        | some rc => if rc = [] then none else Booking.extract_coordinates rc
        | none => none
      else none) = none
    rw [hco]
    by_cases hurl : h.url.getD [] ≠ []
    · rw [if_pos hurl]
    · rw [if_neg hurl]
  · show (if true then
        some (Booking.get_hotel_reviews o (failAt w (Booking.itemURL h))
          (Booking.bookingUrljoin (h.url.getD [])) limit)
      else none) = some []
    rw [if_pos rfl, hrev]

theorem process_hotel_failAt_congr (o : Booking.ReviewOracles) (w : World)
    (incRev : Bool) (limit : ℕ) (u : Str) (h : Booking.RawHotel)
    (hnot : u ∉ Booking.reviewsTouched o w (Booking.itemURL h)) :
    Booking.process_hotel o (failAt w u) incRev limit h =
      Booking.process_hotel o w incRev limit h := by
  have hne : Booking.bookingUrljoin (h.url.getD []) ≠ u := by
    intro he
    apply hnot
    rw [← he]
    unfold Booking.reviewsTouched
    exact List.mem_cons_self _ _
  have hfa : failAt w u (Booking.bookingUrljoin (h.url.getD [])) =
      w (Booking.bookingUrljoin (h.url.getD [])) := by
    unfold failAt
    rw [if_neg hne]
  have hco : Booking.get_hotel_coordinates (failAt w u)
      (Booking.bookingUrljoin (h.url.getD [])) =
      Booking.get_hotel_coordinates w
        (Booking.bookingUrljoin (h.url.getD [])) := by
    unfold Booking.get_hotel_coordinates
    rw [hfa]
  have hrev : Booking.get_hotel_reviews o (failAt w u)
      (Booking.bookingUrljoin (h.url.getD [])) limit =
      Booking.get_hotel_reviews o w
        (Booking.bookingUrljoin (h.url.getD [])) limit := by
    refine (Booking.get_hotel_reviews_congr o w (failAt w u)
      (Booking.bookingUrljoin (h.url.getD [])) limit ?_).symm
    intro v hv
    have hvne : v ≠ u := by
      intro he
      exact hnot (he ▸ hv)
    unfold failAt
    rw [if_neg hvne]
  rw [Booking.process_hotel_eqn, Booking.process_hotel_eqn, hco, hrev]

def c1rawA : Booking.RawHotel :=
  Booking.RawHotel.mk (some (str ("A"))) none none none none
    (some (str ("/hotel/a.html"))) none none none

def c1rawB : Booking.RawHotel :=
  Booking.RawHotel.mk (some (str ("B"))) none none none none
    (some (str ("/hotel/b.html"))) none none none

/-- a result item whose rating text makes `clean_rating` raise. -/
def c1rawBad : Booking.RawHotel :=
  Booking.RawHotel.mk (some (str ("C"))) none (some (str ("Scored .")))
    none none (some (str ("/hotel/c.html"))) none none none

def c1bodyA : Str := str ("<div data-atlas-latlng=\x220,0\x22>")

def c1bodyB : Str := str ("<div data-atlas-latlng=\x220,180\x22>")

/-- a healthy network: both detail pages respond with coordinates. -/
def cexW : World := fun u =>
  if u = str ("https://www.booking.com/hotel/a.html") then .resp 200 c1bodyA
  else if u = str ("https://www.booking.com/hotel/b.html") then .resp 200 c1bodyB
  else .exn

theorem calculate_distance_halfway :
    Booking.calculate_distance ⟨⟨0, 0⟩, ⟨0, 0⟩⟩ ⟨⟨0, 0⟩, ⟨180, 0⟩⟩ =
      Booking.round2 (6371 * Real.pi) := by
  have h0 : Booking.radians ((⟨0, 0⟩ : Dec).toQ) = 0 := by
    unfold Booking.radians
    norm_num [Dec.toQ]
  have h180 : Booking.radians ((⟨180, 0⟩ : Dec).toQ) = Real.pi := by
    unfold Booking.radians
    rw [show (((⟨180, 0⟩ : Dec).toQ : ℚ) : ℝ) = 180 from by
      norm_num [Dec.toQ]]
    ring
  simp only [Booking.calculate_distance]
  rw [h0, h180]
  rw [show ((0 : ℝ) - 0) / 2 = 0 by ring]
  rw [Real.sin_zero]
  rw [show (Real.pi - 0) / 2 = Real.pi / 2 by ring]
  rw [Real.sin_pi_div_two, Real.cos_zero]
  rw [show (0 : ℝ) ^ 2 + 1 * 1 * 1 ^ 2 = 1 by norm_num]
  rw [Real.sqrt_one]
  rw [show (1 : ℝ) - 1 = 0 by norm_num]
  rw [Real.sqrt_zero]
  rw [Booking.atan2_one_zero]
  exact congrArg Booking.round2 (by ring)

theorem round2_pi_scaled_ne : Booking.round2 (6371 * Real.pi) ≠ 0 := by
  have hpi := Real.pi_gt_three
  have h1 : (1 : ℤ) ≤ round (100 * (6371 * Real.pi)) := by
    rw [round_eq, Int.le_floor]
    push_cast
    nlinarith
  unfold Booking.round2
  intro hc
  rw [div_eq_zero_iff] at hc
  rcases hc with hc | hc
  · have h2 : (1 : ℝ) ≤ (round (100 * (6371 * Real.pi)) : ℤ) := by
      exact_mod_cast h1
    rw [hc] at h2
    norm_num at h2
  · norm_num at hc

set_option maxHeartbeats 1000000 in
theorem c1_healthy_batch :
    Booking.processBatch nullOracles cexW false 5 [c1rawA, c1rawB] =
      [Booking.CleanedHotel.mk (some (str ("hotel"))) (some (str ("A"))) none
        ⟨none, none⟩ none none
        (str ("https://www.booking.com/hotel/a.html")) none
        (some ⟨⟨0, 0⟩, ⟨0, 0⟩⟩) none,
      Booking.CleanedHotel.mk (some (str ("hotel"))) (some (str ("B"))) none
        ⟨none, none⟩ none none
        (str ("https://www.booking.com/hotel/b.html")) none
        (some ⟨⟨0, 0⟩, ⟨180, 0⟩⟩) none] := by decide

set_option maxHeartbeats 1000000 in
theorem c1_failed_batch :
    Booking.processBatch nullOracles
      (failAt cexW (Booking.itemURL c1rawA)) false 5 [c1rawA, c1rawB] =
      [Booking.CleanedHotel.mk (some (str ("hotel"))) (some (str ("A"))) none
        ⟨none, none⟩ none none
        (str ("https://www.booking.com/hotel/a.html")) none none none,
      Booking.CleanedHotel.mk (some (str ("hotel"))) (some (str ("B"))) none
        ⟨none, none⟩ none none
        (str ("https://www.booking.com/hotel/b.html")) none
        (some ⟨⟨0, 0⟩, ⟨180, 0⟩⟩) none] := by decide

set_option maxHeartbeats 1000000 in
theorem c1_dropped_batch :
    (Booking.processBatch nullOracles worldDown false 5
      [c1rawA, c1rawBad]).length = 1 := by decide

theorem c1_firstCoords_healthy :
    Booking.firstCoords [Booking.CleanedHotel.mk (some (str ("hotel")))
        (some (str ("A"))) none ⟨none, none⟩ none none
        (str ("https://www.booking.com/hotel/a.html")) none
        (some ⟨⟨0, 0⟩, ⟨0, 0⟩⟩) none,
      Booking.CleanedHotel.mk (some (str ("hotel"))) (some (str ("B"))) none
        ⟨none, none⟩ none none
        (str ("https://www.booking.com/hotel/b.html")) none
        (some ⟨⟨0, 0⟩, ⟨180, 0⟩⟩) none] = some ⟨⟨0, 0⟩, ⟨0, 0⟩⟩ := by decide

theorem c1_firstCoords_failed :
    Booking.firstCoords [Booking.CleanedHotel.mk (some (str ("hotel")))
        (some (str ("A"))) none ⟨none, none⟩ none none
        (str ("https://www.booking.com/hotel/a.html")) none none none,
      Booking.CleanedHotel.mk (some (str ("hotel"))) (some (str ("B"))) none
        ⟨none, none⟩ none none
        (str ("https://www.booking.com/hotel/b.html")) none
        (some ⟨⟨0, 0⟩, ⟨180, 0⟩⟩) none] = some ⟨⟨0, 0⟩, ⟨180, 0⟩⟩ := by decide

set_option maxHeartbeats 2000000 in
/-- C1 counterexample: (a) an enrichment exception on one item (here a
rating whose captured token makes `float()` raise) does NOT leave a
record with Absent secondary fields — the item is dropped by the
isinstance filter, so a 2-item batch returns 1 record; (b) a fetch
failure on one item does NOT leave sibling records unaffected: when the
failing item was the first record with coordinates, the distance
reference shifts to the sibling, whose distance changes from
round2(6371·π) (half the great circle) to 0. -/
theorem C1_cex_reference_shift :
    ([c1rawA, c1rawBad].length = 2 ∧
      (Booking.search_post nullOracles worldDown false 5
        [c1rawA, c1rawBad]).length = 1) ∧
    ((Booking.search_post nullOracles cexW false 5
        [c1rawA, c1rawB]).getD 1 (Booking.defaultHotel, none)).2 =
      some (Booking.round2 (6371 * Real.pi)) ∧
    ((Booking.search_post nullOracles (failAt cexW (Booking.itemURL c1rawA))
        false 5 [c1rawA, c1rawB]).getD 1 (Booking.defaultHotel, none)).2 =
      some 0 ∧
    ((Booking.search_post nullOracles cexW false 5
        [c1rawA, c1rawB]).getD 1 (Booking.defaultHotel, none)).1 =
      ((Booking.search_post nullOracles (failAt cexW (Booking.itemURL c1rawA))
        false 5 [c1rawA, c1rawB]).getD 1 (Booking.defaultHotel, none)).1 ∧
    Booking.round2 (6371 * Real.pi) ≠ 0 := by
  refine ⟨⟨rfl, ?_⟩, ?_, ?_, ?_, round2_pi_scaled_ne⟩
  · unfold Booking.search_post
    rw [Booking.addDistances_length]
    exact c1_dropped_batch
  · unfold Booking.search_post
    rw [c1_healthy_batch]
    unfold Booking.addDistances
    rw [c1_firstCoords_healthy]
    simp only [List.map_cons, List.map_nil, List.getD_cons_succ,
      List.getD_cons_zero]
    exact congrArg some calculate_distance_halfway
  · unfold Booking.search_post
    rw [c1_failed_batch]
    unfold Booking.addDistances
    rw [c1_firstCoords_failed]
    simp only [List.map_cons, List.map_nil, List.getD_cons_succ,
      List.getD_cons_zero]
    exact congrArg some (Booking.calculate_distance_self _)
  · unfold Booking.search_post
    rw [c1_healthy_batch, c1_failed_batch]
    unfold Booking.addDistances
    rw [c1_firstCoords_healthy, c1_firstCoords_failed]
    simp only [List.map_cons, List.map_nil, List.getD_cons_succ,
      List.getD_cons_zero]

/-- C1 (amended): in the Booking enrichment pass, the returned batch has
a record exactly for each item whose world-independent parsing
(`extract_hotel_id`, `clean_rating`) does not raise — raising items are
dropped, not kept with Absent fields.  For a batch whose items all
parse, making every fetch of item `i`'s URL fail keeps all records: the
lengths are preserved, the failing item's coordinates are Absent, its
reviews are the empty list, the distance pass leaves its distance
Absent, and the cleaned record of any item whose own enrichment run
never touches the failing URL is unchanged.  (Sibling distance VALUES
may still change, because the reference point is global to the batch;
see the counterexample.) -/
theorem C1_enrichment_isolation_amended (o : Booking.ReviewOracles)
    (w : World) (limit : ℕ) (raws : List Booking.RawHotel) (i : ℕ)
    (u : Str) (wf : World)
    (hok : ∀ h ∈ raws, Booking.itemOk h = true)
    (hi : i < raws.length)
    (hu : u = Booking.itemURL (raws.getD i Booking.defaultRaw))
    (hwf : wf = failAt w u) :
    (∀ (raws2 : List Booking.RawHotel) (w2 : World) (incRev : Bool),
      Booking.processBatch o w2 incRev limit raws2 =
        (raws2.filter Booking.itemOk).map
          (Booking.process_hotel_val o w2 incRev limit)) ∧
    (Booking.processBatch o wf true limit raws).length = raws.length ∧
    (Booking.processBatch o w true limit raws).length = raws.length ∧
    ((Booking.processBatch o wf true limit raws).getD i
      Booking.defaultHotel).coordinates = none ∧
    ((Booking.processBatch o wf true limit raws).getD i
      Booking.defaultHotel).reviews = some [] ∧
    (Booking.addDistances (Booking.processBatch o wf true limit raws)).getD i
        (Booking.defaultHotel, none) =
      ((Booking.processBatch o wf true limit raws).getD i
        Booking.defaultHotel, none) ∧
    (∀ j, u ∉ Booking.reviewsTouched o w
        (Booking.itemURL (raws.getD j Booking.defaultRaw)) →
      (Booking.processBatch o wf true limit raws).getD j Booking.defaultHotel =
        (Booking.processBatch o w true limit raws).getD j
          Booking.defaultHotel) := by
  subst hu
  subst hwf
  have hbw := Booking.processBatch_of_ok o w true limit raws hok
  have hbf := Booking.processBatch_of_ok o
    (failAt w (Booking.itemURL (raws.getD i Booking.defaultRaw))) true limit
    raws hok
  have hmem : raws.getD i Booking.defaultRaw ∈ raws :=
    getD_mem_of_lt raws i Booking.defaultRaw hi
  have hfail := process_hotel_val_failed o w limit
    (raws.getD i Booking.defaultRaw) (hok _ hmem)
  have hgi : (Booking.processBatch o
        (failAt w (Booking.itemURL (raws.getD i Booking.defaultRaw))) true
        limit raws).getD i Booking.defaultHotel =
      Booking.process_hotel_val o
        (failAt w (Booking.itemURL (raws.getD i Booking.defaultRaw))) true
        limit (raws.getD i Booking.defaultRaw) := by
    rw [hbf]
    exact getD_map_lt _ raws i Booking.defaultHotel Booking.defaultRaw hi
  refine ⟨fun raws2 w2 incRev =>
      Booking.processBatch_eq_filter o w2 incRev limit raws2,
    by rw [hbf]; exact List.length_map raws _,
    by rw [hbw]; exact List.length_map raws _,
    ?_, ?_, ?_, ?_⟩
  · rw [hgi]
    exact hfail.1
  · rw [hgi]
    exact hfail.2
  · apply addDistances_getD_none
    rw [hgi]
    exact hfail.1
  · intro j hnot
    by_cases hj : j < raws.length
    · rw [hbf, hbw, getD_map_lt _ raws j Booking.defaultHotel
        Booking.defaultRaw hj, getD_map_lt _ raws j Booking.defaultHotel
        Booking.defaultRaw hj]
      unfold Booking.process_hotel_val
      rw [process_hotel_failAt_congr o w true limit
        (Booking.itemURL (raws.getD i Booking.defaultRaw))
        (raws.getD j Booking.defaultRaw) hnot]
    · rw [hbf, hbw, getD_ge _ j _ (by simpa using Nat.le_of_not_lt hj),
        getD_ge _ j _ (by simpa using Nat.le_of_not_lt hj)]

/-- witness for the amended C1 theorem on a concrete one-item batch. -/
theorem C1_enrichment_isolation_amended_witness :
    (∀ h ∈ [c1rawA], Booking.itemOk h = true) ∧
    0 < [c1rawA].length ∧
    ((∀ (raws2 : List Booking.RawHotel) (w2 : World) (incRev : Bool),
      Booking.processBatch nullOracles w2 incRev 5 raws2 =
        (raws2.filter Booking.itemOk).map
          (Booking.process_hotel_val nullOracles w2 incRev 5)) ∧
    (Booking.processBatch nullOracles
      (failAt worldDown (Booking.itemURL ([c1rawA].getD 0 Booking.defaultRaw)))
      true 5 [c1rawA]).length = [c1rawA].length ∧
    (Booking.processBatch nullOracles worldDown true 5 [c1rawA]).length =
      [c1rawA].length ∧
    ((Booking.processBatch nullOracles
      (failAt worldDown (Booking.itemURL ([c1rawA].getD 0 Booking.defaultRaw)))
      true 5 [c1rawA]).getD 0 Booking.defaultHotel).coordinates = none ∧
    ((Booking.processBatch nullOracles
      (failAt worldDown (Booking.itemURL ([c1rawA].getD 0 Booking.defaultRaw)))
      true 5 [c1rawA]).getD 0 Booking.defaultHotel).reviews = some [] ∧
    (Booking.addDistances (Booking.processBatch nullOracles
        (failAt worldDown
          (Booking.itemURL ([c1rawA].getD 0 Booking.defaultRaw)))
        true 5 [c1rawA])).getD 0 (Booking.defaultHotel, none) =
      ((Booking.processBatch nullOracles
        (failAt worldDown
          (Booking.itemURL ([c1rawA].getD 0 Booking.defaultRaw)))
        true 5 [c1rawA]).getD 0 Booking.defaultHotel, none) ∧
    (∀ j, Booking.itemURL ([c1rawA].getD 0 Booking.defaultRaw) ∉
        Booking.reviewsTouched nullOracles worldDown
          (Booking.itemURL ([c1rawA].getD j Booking.defaultRaw)) →
      (Booking.processBatch nullOracles
        (failAt worldDown
          (Booking.itemURL ([c1rawA].getD 0 Booking.defaultRaw)))
        true 5 [c1rawA]).getD j Booking.defaultHotel =
      (Booking.processBatch nullOracles worldDown true 5 [c1rawA]).getD j
        Booking.defaultHotel)) :=
  ⟨by decide, by decide,
    C1_enrichment_isolation_amended nullOracles worldDown 5 [c1rawA] 0
      (Booking.itemURL ([c1rawA].getD 0 Booking.defaultRaw))
      (failAt worldDown (Booking.itemURL ([c1rawA].getD 0 Booking.defaultRaw)))
      (by decide) (by decide) rfl rfl⟩
